import Mathlib

/-!
Verification of the SAMoS `IntegratorMyPeriodicBrownian::integrate` step
(integrator_my_periodic_brownian.cpp) and of
`PairSoftPotential::set_pair_parameters` (pair_soft_potential.hpp)
against their natural-language specification.

Shallow embedding conventions:
* C++ `double` is modelled as `ℚ`; `sqrt` has no computable rational
  counterpart, so the integrator carries an abstract square-root function
  `m_sqrtFn` supplied by the environment, mirroring the calls
  `sqrt(2.0*m_mu*T)` and `sqrt(m_dt)` in the source.
* The RNG (`m_rng->drnd()`, `m_rng->gauss_rng(1.0)`) is modelled as two
  fixed streams `unif, gauss : ℕ → ℚ` together with per-stream draw
  counters in the system state; each draw reads the stream at the current
  counter and increments it, so draw identity and draw order are explicit.
* The particle store (`m_system->get_particle`) is a `List Particle`
  indexed by particle id, and the group
  (`m_system->get_group(..)->get_particles()`) is a `List ℕ` of ids.
  An out-of-bounds access (undefined behaviour in the C++) is modelled as
  failure: the step functions return `Except SysState SysState`, where an
  `.error st` result carries the memory state at the moment of the
  invalid access or null dereference (everything mutated so far stays
  mutated, everything after is not reached).
* External collaborators kept abstract, per the spec: the constraint
  operator is a record of functions on particles; the optional pairwise
  potential and alignment evaluators are functions on the particle store
  (they populate force/torque fields as a side effect);
  `m_system->update_mesh()` is an opaque notification with no observable
  effect on particles, group, or RNG and is not modelled.
-/

/-- Particle record: the fields of the SAMoS `Particle` that integrate()
reads or writes (position, director, velocity, force accumulator, torque
accumulator, angular velocity, age). -/
structure Particle where
  x : ℚ
  y : ℚ
  z : ℚ
  nx : ℚ
  ny : ℚ
  nz : ℚ
  vx : ℚ
  vy : ℚ
  vz : ℚ
  fx : ℚ
  fy : ℚ
  fz : ℚ
  tau_x : ℚ
  tau_y : ℚ
  tau_z : ℚ
  omega : ℚ
  age : ℚ
  deriving DecidableEq, Repr

/-- System state visible to integrate(): the group's particle-id list, the
particle store, the global run-step counter, and the RNG draw counters. -/
structure SysState where
  group : List ℕ
  store : List Particle
  runStep : ℕ
  gcount : ℕ
  ucount : ℕ
  deriving DecidableEq, Repr

/-- RNG environment: the fixed value streams behind `gauss_rng(1.0)` and
`drnd()`. A seeded generator is a pair of such streams. -/
structure RNGEnv where
  gauss : ℕ → ℚ
  unif : ℕ → ℚ

/-- The constraint operator (`m_constrainer`): abstract manifold
projection and tangent-rotation operations, per spec section 4.3. -/
structure ConstraintOps where
  enforce : Particle → Particle
  project_torque : Particle → ℚ
  rotate_director : Particle → ℚ → Particle
  rotate_velocity : Particle → ℚ → Particle

/-- Integrator configuration: the constructor-supplied numeric parameters,
mode flags and collaborators of `IntegratorMyPeriodicBrownian`. -/
structure Config where
  m_dt : ℚ
  m_mu : ℚ
  m_mur : ℚ
  m_v0 : ℚ
  m_tau : ℚ
  m_stoch_coeff : ℚ
  m_nematic : Bool
  m_velocity : Bool
  m_constrainer : Option ConstraintOps
  m_potential : Option (ℚ → List Particle → List Particle)
  m_align : Option (List Particle → List Particle)
  m_temp : ℕ → ℚ
  m_sqrtFn : ℚ → ℚ

/-- Read the particle at group slot `i`: `pi = particles[i]` followed by
`m_system->get_particle(pi)`; fails (carrying the current state) if either
index is out of range. -/
def readP (st : SysState) (i : ℕ) : Except SysState (ℕ × Particle) :=
  match st.group[i]? with
  | none => .error st
  | some pid =>
    match st.store[pid]? with
    | none => .error st
    | some p => .ok (pid, p)

/-- Read at a signed group index (the C++ patch loops use `int` indices);
a negative index is out of range. -/
def readPZ (st : SysState) (i : ℤ) : Except SysState (ℕ × Particle) :=
  if i < 0 then .error st else readP st i.toNat

/-- Write particle `p` back to store position `pid`. -/
def writeP (st : SysState) (pid : ℕ) (p : Particle) : SysState :=
  { st with store := st.store.set pid p }

/-- One call to `m_rng->gauss_rng(1.0)`: consume the next Gaussian draw. -/
def drawGauss (env : RNGEnv) (st : SysState) : ℚ × SysState :=
  (env.gauss st.gcount, { st with gcount := st.gcount + 1 })

/-- One call to `m_rng->drnd()`: consume the next uniform draw. -/
def drawUnif (env : RNGEnv) (st : SysState) : ℚ × SysState :=
  (env.unif st.ucount, { st with ucount := st.ucount + 1 })

/-- Run a per-index step over a list of loop indices, stopping at the
first failure (a C++ crash aborts the loop with state as-is). -/
def foldSteps {α : Type} (f : SysState → α → Except SysState SysState) :
    List α → SysState → Except SysState SysState
  | [], st => .ok st
  | i :: is, st =>
    match f st i with
    | .error e => .error e
    | .ok st1 => foldSteps f is st1

/-- The memory state an integrate() call leaves behind, whether it
completed (`.ok`) or crashed partway (`.error`). -/
def outState (r : Except SysState SysState) : SysState :=
  match r with
  | .ok st => st
  | .error st => st

/-- `true` iff the run completed without an invalid access. -/
def exceptOk (r : Except SysState SysState) : Bool :=
  match r with
  | .ok _ => true
  | .error _ => false

/-- `m_system->reset_forces()` on one particle: zero the accumulator. -/
def resetForcesP (p : Particle) : Particle :=
  { p with fx := 0, fy := 0, fz := 0 }

/-- `m_system->reset_torques()` on one particle: zero the accumulator. -/
def resetTorquesP (p : Particle) : Particle :=
  { p with tau_x := 0, tau_y := 0, tau_z := 0 }

/-- Lines 84-94 of integrate(): the deterministic drift
`fd = v0*n + mu*f`, velocity overwrite `v = fd`, and position update
`r += dt*fd`. -/
def detUpdate (cfg : Config) (p : Particle) : Particle :=
  let fd_x := cfg.m_v0 * p.nx + cfg.m_mu * p.fx
  let fd_y := cfg.m_v0 * p.ny + cfg.m_mu * p.fy
  let fd_z := cfg.m_v0 * p.nz + cfg.m_mu * p.fz
  { p with
    vx := fd_x, vy := fd_y, vz := fd_z,
    x := p.x + cfg.m_dt * fd_x,
    y := p.y + cfg.m_dt * fd_y,
    z := p.z + cfg.m_dt * fd_z }

/-- Lines 98-106 of integrate(): the stochastic translational kick.
Three fresh Gaussian draws `fr = B*g`, added to velocity and, scaled by
`sqrt(dt)`, to position. -/
def noiseKick (B sqrt_dt : ℚ) (env : RNGEnv) (p : Particle) (st : SysState) :
    Particle × SysState :=
  let g1 := drawGauss env st
  let fr_x := B * g1.1
  let g2 := drawGauss env g1.2
  let fr_y := B * g2.1
  let g3 := drawGauss env g2.2
  let fr_z := B * g3.1
  ({ p with
     vx := p.vx + fr_x, vy := p.vy + fr_y, vz := p.vz + fr_z,
     x := p.x + sqrt_dt * fr_x,
     y := p.y + sqrt_dt * fr_y,
     z := p.z + sqrt_dt * fr_z }, g3.2)

/-- Lines 84-107 of integrate(): deterministic update followed by the
translational kick, the latter only when `T > 0`. -/
def transPhase (cfg : Config) (env : RNGEnv) (T B sqrt_dt : ℚ)
    (p : Particle) (st : SysState) : Particle × SysState :=
  let p1 := detUpdate cfg p
  if T > 0 then noiseKick B sqrt_dt env p1 st else (p1, st)

/-- Lines 108-120 of integrate(): enforce the constraint, project the
torque at the corrected position, draw the rotational noise, rotate the
director (and the velocity when tracking is on), and age the particle. -/
def rotPhase (cfg : Config) (C : ConstraintOps) (env : RNGEnv)
    (p : Particle) (st : SysState) : Particle × SysState :=
  let p1 := C.enforce p
  let p2 := { p1 with omega := cfg.m_mur * C.project_torque p1 }
  let g := drawGauss env st
  let dtheta := cfg.m_dt * p2.omega + cfg.m_stoch_coeff * g.1
  let p3 := C.rotate_director p2 dtheta
  let p4 := if cfg.m_velocity then C.rotate_velocity p3 dtheta else p3
  ({ p4 with age := p4.age + cfg.m_dt }, g.2)

/-- The body of the main per-particle loop (lines 79-121) at loop index
`i`. A null `m_constrainer` crashes at the `enforce` call, after the
translational phase has already mutated the particle in place. -/
def stepParticle (cfg : Config) (env : RNGEnv) (T B sqrt_dt : ℚ)
    (st : SysState) (i : ℕ) : Except SysState SysState :=
  match readP st i with
  | .error e => .error e
  | .ok (pid, p) =>
    let tp := transPhase cfg env T B sqrt_dt p st
    match cfg.m_constrainer with
    | none => .error (writeP tp.2 pid tp.1)
    | some C =>
      let rp := rotPhase cfg C env tp.1 tp.2
      .ok (writeP rp.2 pid rp.1)

/-- Particle after a nematic flip (lines 64-68): director negated, and
velocity negated too when velocity tracking is on. -/
def flipParticle (velocity : Bool) (p : Particle) : Particle :=
  let p1 := { p with nx := -p.nx, ny := -p.ny, nz := -p.nz }
  if velocity then { p1 with vx := -p1.vx, vy := -p1.vy, vz := -p1.vz } else p1

/-- Body of the nematic flip loop (lines 58-70) at loop index `i`: one
uniform draw per particle, flip iff it is below `m_tau`. -/
def flipStep (cfg : Config) (env : RNGEnv) (st : SysState) (i : ℕ) :
    Except SysState SysState :=
  match readP st i with
  | .error e => .error e
  | .ok (pid, p) =>
    let u := drawUnif env st
    if u.1 < cfg.m_tau then .ok (writeP u.2 pid (flipParticle cfg.m_velocity p))
    else .ok u.2

/-- Lines 56-70 of integrate(): the director-flip pass, run only in
nematic mode. -/
def flipPhase (cfg : Config) (env : RNGEnv) (st : SysState) :
    Except SysState SysState :=
  if cfg.m_nematic then foldSteps (flipStep cfg env) (List.range st.group.length) st
  else .ok st

/-- `m_system->reset_forces()` (line 53). -/
def reset_forces (st : SysState) : SysState :=
  { st with store := st.store.map resetForcesP }

/-- `m_system->reset_torques()` (line 54). -/
def reset_torques (st : SysState) : SysState :=
  { st with store := st.store.map resetTorquesP }

/-- `if (m_potential) m_potential->compute(m_dt)` (lines 73-74): the
optional pairwise-potential evaluator rewrites the particle store (it
populates the force fields as a side effect). -/
def applyPotential (cfg : Config) (st : SysState) : SysState :=
  match cfg.m_potential with
  | some P => { st with store := P cfg.m_dt st.store }
  | none => st

/-- `if (m_align) m_align->compute()` (lines 76-77). -/
def applyAlign (cfg : Config) (st : SysState) : SysState :=
  match cfg.m_align with
  | some A => { st with store := A st.store }
  | none => st

/-- Lines 42-121 of integrate(): everything before the hand-written
periodic patch — force/torque reset, nematic flip, collaborator force and
torque computation, and the main per-particle loop. -/
def prePatch (cfg : Config) (env : RNGEnv) (st0 : SysState) :
    Except SysState SysState :=
  let N := st0.group.length
  let T := cfg.m_temp st0.runStep
  let B := cfg.m_sqrtFn (2 * cfg.m_mu * T)
  let sqrt_dt := cfg.m_sqrtFn cfg.m_dt
  match flipPhase cfg env (reset_torques (reset_forces st0)) with
  | .error e => .error e
  | .ok st3 =>
    foldSteps (stepParticle cfg env T B sqrt_dt) (List.range N)
      (applyAlign cfg (applyPotential cfg st3))

/-- The half-open `int` loop range `[lo, hi)` of the C++ `for` loops in
the periodic patch. -/
def intRange (lo hi : ℤ) : List ℤ :=
  (List.range (hi - lo).toNat).map (fun k : ℕ => lo + (k : ℤ))

/-- One boundary-detection scan of the patch (e.g. lines 144-154): walk
the given index window; at the first particle whose `y` satisfies the
condition, stop and return that index, otherwise return the initial
boundary value. The scan only reads. -/
def scanLoop (cond : Particle → Bool) (dflt : ℤ) (st : SysState) :
    List ℤ → Except SysState ℤ
  | [] => .ok dflt
  | i :: is =>
    match readPZ st i with
    | .error e => .error e
    | .ok pr => if cond pr.2 then .ok i else scanLoop cond dflt st is

/-- One iteration of a patch copy loop (e.g. lines 210-221): read the
source particle at group index `i - soff`, read the target at group index
`i`, and overwrite the target's position with the source's, `y` shifted
by `shift`. -/
def copyStep (soff : ℤ) (shift : ℚ) (st : SysState) (i : ℤ) :
    Except SysState SysState :=
  match readPZ st (i - soff) with
  | .error e => .error e
  | .ok src =>
    match readPZ st i with
    | .error e => .error e
    | .ok tgt =>
      .ok (writeP st tgt.1
        { tgt.2 with x := src.2.x, y := src.2.y + shift, z := src.2.z })

/-- Patch constant `length_period` (line 127). -/
def length_period : ℚ := 30

/-- Patch constant `bpacking` (line 128). -/
def bpacking : ℚ := 2

/-- Patch constant `x_lenghth` (line 129, source spelling kept). -/
def x_lenghth : ℚ := 100

/-- Patch constant `internal_index_start` (line 130). -/
def internal_index_start : ℤ := 0

/-- Patch constant `internal_index_end = 2904/3 - 1` (integer division,
line 131). -/
def internal_index_end : ℤ := 2904 / 3 - 1

/-- Patch constant `up_internal_index_start` (line 132). -/
def up_internal_index_start : ℤ := internal_index_end + 1

/-- Patch constant `up_internal_index_end` (line 133). -/
def up_internal_index_end : ℤ :=
  up_internal_index_start + (internal_index_end - internal_index_start)

/-- Patch constant `down_internal_index_start` (line 134). -/
def down_internal_index_start : ℤ := up_internal_index_end + 1

/-- Patch constant `down_internal_index_end` (line 135). -/
def down_internal_index_end : ℤ :=
  down_internal_index_start + (internal_index_end - internal_index_start)

/-- Initial `right_boundary_start` (line 137); the C++ `int(...)` cast of
the non-negative double expression is `Int.floor`. -/
def right_boundary_start0 : ℤ :=
  Int.floor ((internal_index_end : ℚ) + length_period * bpacking)

/-- Initial `right_boundary_end` (line 138). -/
def right_boundary_end0 : ℤ :=
  Int.floor ((internal_index_end : ℚ) + 2 * length_period * bpacking)

/-- Initial `left_boundary_start` (line 139). -/
def left_boundary_start0 : ℤ :=
  Int.floor ((internal_index_end : ℚ) + 4 * length_period * bpacking
    + 2 * x_lenghth * bpacking)

/-- Initial `left_boundary_end` (line 140). -/
def left_boundary_end0 : ℤ :=
  Int.floor ((internal_index_end : ℚ) + 5 * length_period * bpacking
    + 2 * x_lenghth * bpacking)

/-- Patch constant `boundary_periodic_update_region` (line 141). -/
def boundary_periodic_update_region : ℤ := 30

/-- Lines 143-196 of integrate(): the four boundary-detection scans and
the `p1..p4` probe reads with their `-= 1` adjustments. These only read
the state; the value returned is `(right_boundary_start,
right_boundary_end, left_boundary_start, left_boundary_end)` after the
scans and adjustments. -/
def patchScanPhase (st : SysState) : Except SysState (ℤ × ℤ × ℤ × ℤ) :=
  match scanLoop (fun p => decide (p.y ≤ length_period / 2))
      right_boundary_start0 st
      (intRange (right_boundary_start0 - boundary_periodic_update_region)
        (right_boundary_start0 + boundary_periodic_update_region)) with
  | .error e => .error e
  | .ok rbs =>
  match scanLoop (fun p => decide (p.y ≤ -length_period / 2))
      right_boundary_end0 st
      (intRange (right_boundary_end0 - boundary_periodic_update_region)
        (right_boundary_end0 + boundary_periodic_update_region)) with
  | .error e => .error e
  | .ok rbe0 =>
  match readPZ st rbs with
  | .error e => .error e
  | .ok p1 =>
  match readPZ st rbe0 with
  | .error e => .error e
  | .ok p2 =>
  let rbe := if abs (p1.2.y - p2.2.y) < 1 / 1000 then rbe0 - 1 else rbe0
  match scanLoop (fun p => decide (p.y ≥ -length_period / 2))
      left_boundary_start0 st
      (intRange (left_boundary_start0 - boundary_periodic_update_region)
        (left_boundary_start0 + boundary_periodic_update_region)) with
  | .error e => .error e
  | .ok lbs =>
  match scanLoop (fun p => decide (p.y ≥ length_period / 2))
      left_boundary_end0 st
      (intRange (left_boundary_end0 - boundary_periodic_update_region)
        (left_boundary_end0 + boundary_periodic_update_region)) with
  | .error e => .error e
  | .ok lbe0 =>
  match readPZ st lbs with
  | .error e => .error e
  | .ok p3 =>
  match readPZ st lbe0 with
  | .error e => .error e
  | .ok p4 =>
  let lbe := if abs (p4.2.y - p3.2.y) < 1 / 1000 then lbe0 - 1 else lbe0
  .ok (rbs, rbe, lbs, lbe)

/-- Lines 209-234 of integrate(): the two periodic-update copy loops,
duplicating slots `[0, 967]` into `[968, 1935]` (y shifted up) and
`[1936, 2903]` (y shifted down). -/
def patchCopyPhase (st : SysState) : Except SysState SysState :=
  match foldSteps
      (copyStep (up_internal_index_start - internal_index_start) length_period)
      (intRange up_internal_index_start (up_internal_index_end + 1)) st with
  | .error e => .error e
  | .ok stU =>
    foldSteps
      (copyStep (down_internal_index_start - internal_index_start)
        (-length_period))
      (intRange down_internal_index_start (down_internal_index_end + 1)) stU

/-- Lines 235-287 of integrate(): the four boundary-region copy loops.
They are guarded by `update_boundary`, which is hardcoded `false`, so
this is dead code; it is transcribed for completeness. `q` carries the
scan results `(rbs, rbe, lbs, lbe)`. -/
def boundaryCopyPhase (q : ℤ × ℤ × ℤ × ℤ) (st : SysState) :
    Except SysState SysState :=
  let rbs := q.1
  let rbe := q.2.1
  let lbs := q.2.2.1
  let lbe := q.2.2.2
  let right_up_boundary_end := rbs + 1
  let right_up_boundary_start :=
    right_up_boundary_end - boundary_periodic_update_region + 1
  let right_down_boundary_start := rbe + 1
  let right_down_boundary_end :=
    right_down_boundary_start + boundary_periodic_update_region - 1
  let left_up_boundary_start := lbe + 1
  let left_up_boundary_end :=
    left_up_boundary_start + boundary_periodic_update_region - 1
  let left_down_boundary_end := lbs - 1
  let left_down_boundary_start :=
    left_down_boundary_end - boundary_periodic_update_region + 1
  match foldSteps (copyStep (-(rbe - rbs + 1)) length_period)
      (intRange right_up_boundary_start (right_up_boundary_end + 1)) st with
  | .error e => .error e
  | .ok s1 =>
  match foldSteps (copyStep (rbe - rbs + 1) (-length_period))
      (intRange right_down_boundary_start (right_down_boundary_end + 1)) s1 with
  | .error e => .error e
  | .ok s2 =>
  match foldSteps (copyStep (lbe - lbs + 1) length_period)
      (intRange left_up_boundary_start (left_up_boundary_end + 1)) s2 with
  | .error e => .error e
  | .ok s3 =>
    foldSteps (copyStep (-(lbe - lbs + 1)) (-length_period))
      (intRange left_down_boundary_start (left_down_boundary_end + 1)) s3

/-- Lines 122-289 of integrate(): the hand-written periodic-boundary
patch ("Begin of my changes"). `periodic_update` is hardcoded `true` and
`update_boundary` hardcoded `false` in the source, so the scans and the
two internal copy loops always run and the boundary copies never do. -/
def periodicPatch (st : SysState) : Except SysState SysState :=
  let periodic_update := true
  let update_boundary := false
  if periodic_update then
    match patchScanPhase st with
    | .error e => .error e
    | .ok q =>
      match patchCopyPhase st with
      | .error e => .error e
      | .ok stD => if update_boundary then boundaryCopyPhase q stD else .ok stD
  else .ok st

/-- The whole of `IntegratorMyPeriodicBrownian::integrate()` (lines
42-292): the pre-patch pipeline followed by the periodic patch. The final
`m_system->update_mesh()` is an opaque external notification with no
effect on particles, group or RNG, and is not modelled. -/
def integrate (cfg : Config) (env : RNGEnv) (st : SysState) :
    Except SysState SysState :=
  match prePatch cfg env st with
  | .error e => .error e
  | .ok st1 => periodicPatch st1

/-- `SoftParameters` of pair_soft_potential.hpp. -/
structure SoftParameters where
  k : ℚ
  a : ℚ
  deriving DecidableEq, Repr

/-- The `pairs_type` argument of `set_pair_parameters`, a string-keyed
map; the `lexical_cast` string parsing is out of scope, so entries are
modelled as already-parsed optional typed values for the four keys the
function looks up. -/
structure PairParamInput where
  type_1 : Option ℤ
  type_2 : Option ℤ
  k : Option ℚ
  a : Option ℚ
  deriving DecidableEq, Repr

/-- The `PairSoftPotential` object state touched by
`set_pair_parameters`: the global defaults `m_k`, `m_a`, the per-type
table `m_pair_params` (an unchecked C array, modelled as a total function
on signed indices) and the `m_has_pair_params` flag. -/
structure PairSoftPotentialState where
  m_k : ℚ
  m_a : ℚ
  m_pair_params : ℤ → ℤ → SoftParameters
  m_has_pair_params : Bool

/-- Assignment `tbl[i][j].k = v` on the pair-parameter table. -/
def updK (tbl : ℤ → ℤ → SoftParameters) (i j : ℤ) (v : ℚ) :
    ℤ → ℤ → SoftParameters :=
  fun a b => if a = i ∧ b = j then { tbl a b with k := v } else tbl a b

/-- `PairSoftPotential::set_pair_parameters` (pair_soft_potential.hpp
lines 102-150). Throwing `runtime_error` is modelled as `.error` carrying
the (unmodified) object state; `Messenger` logging is external and
omitted. The four stores at lines 142-147 are transcribed in source
order: both write the `.k` field, the last two with `param["a"]`. -/
def set_pair_parameters (s : PairSoftPotentialState) (pair_param : PairParamInput) :
    Except PairSoftPotentialState PairSoftPotentialState :=
  match pair_param.type_1 with
  | none => .error s
  | some type_1 =>
  match pair_param.type_2 with
  | none => .error s
  | some type_2 =>
    let param_k : ℚ := match pair_param.k with
      | some v => v
      | none => s.m_k
    let param_a : ℚ := match pair_param.a with
      | some v => v
      | none => s.m_a
    let t1 := updK s.m_pair_params (type_1 - 1) (type_2 - 1) param_k
    let t2 := if type_1 ≠ type_2 then updK t1 (type_2 - 1) (type_1 - 1) param_k else t1
    let t3 := updK t2 (type_1 - 1) (type_2 - 1) param_a
    let t4 := if type_1 ≠ type_2 then updK t3 (type_2 - 1) (type_1 - 1) param_a else t3
    .ok { s with m_pair_params := t4, m_has_pair_params := true }

/-- `true` iff a `set_pair_parameters` call returned normally. -/
def pairOk (r : Except PairSoftPotentialState PairSoftPotentialState) : Bool :=
  match r with
  | .ok _ => true
  | .error _ => false

/-- The object state after a `set_pair_parameters` call, completed or
aborted by throw. -/
def pairOut (r : Except PairSoftPotentialState PairSoftPotentialState) :
    PairSoftPotentialState :=
  match r with
  | .ok s => s
  | .error s => s

/-- Shared concrete flat-plane constraint operator for witnesses and
counterexamples: identity projection, zero torque, trivial rotations. -/
def flatOps : ConstraintOps :=
  { enforce := id
    project_torque := fun _ => 0
    rotate_director := fun p _ => p
    rotate_velocity := fun p _ => p }

/-- Shared concrete particle for witnesses and counterexamples. -/
def pW : Particle :=
  { x := 0, y := 0, z := 0, nx := 1, ny := 0, nz := 0,
    vx := 5, vy := 5, vz := 5, fx := 3, fy := 3, fz := 3,
    tau_x := 0, tau_y := 0, tau_z := 0, omega := 7, age := 2 }

/-- Shared concrete RNG environment (all draws zero). -/
def envW : RNGEnv := { gauss := fun _ => 0, unif := fun _ => 0 }

/-- Shared concrete single-particle system state. -/
def stW : SysState :=
  { group := [0], store := [pW], runStep := 0, gcount := 0, ucount := 0 }

/-- Shared concrete configuration with a flat-plane constrainer. -/
def cfgW : Config :=
  { m_dt := 1/10, m_mu := 0, m_mur := 1, m_v0 := 1, m_tau := 1/2,
    m_stoch_coeff := 0, m_nematic := false, m_velocity := false,
    m_constrainer := some flatOps, m_potential := none, m_align := none,
    m_temp := fun _ => 0, m_sqrtFn := fun _ => 0 }

/-- Shared concrete configuration with nematic mode on and flip
probability 1. -/
def cfgN : Config := { cfgW with m_nematic := true, m_tau := 1 }

/-- Shared concrete configuration with the constraint operator unset. -/
def cfgU : Config := { cfgW with m_constrainer := none }

/-- Shared concrete 2904-particle state: the smallest group size for
which the periodic patch is well-defined. -/
def stBig : SysState :=
  { group := List.range 2904, store := List.replicate 2904 pW,
    runStep := 0, gcount := 0, ucount := 0 }

/-- Concrete pair-potential state for the C9/C10 witnesses. -/
def psW : PairSoftPotentialState :=
  { m_k := 10, m_a := 2, m_pair_params := fun _ _ => { k := 10, a := 99 },
    m_has_pair_params := false }

/-! ### Small helper lemmas about the embedding -/

@[simp]
theorem writeP_group (st : SysState) (pid : ℕ) (p : Particle) :
    (writeP st pid p).group = st.group := rfl

@[simp]
theorem writeP_runStep (st : SysState) (pid : ℕ) (p : Particle) :
    (writeP st pid p).runStep = st.runStep := rfl

@[simp]
theorem writeP_gcount (st : SysState) (pid : ℕ) (p : Particle) :
    (writeP st pid p).gcount = st.gcount := rfl

@[simp]
theorem writeP_ucount (st : SysState) (pid : ℕ) (p : Particle) :
    (writeP st pid p).ucount = st.ucount := rfl

@[simp]
theorem writeP_store_length (st : SysState) (pid : ℕ) (p : Particle) :
    (writeP st pid p).store.length = st.store.length := by
  simp [writeP]

theorem readP_error_eq (st e : SysState) (i : ℕ)
    (h : readP st i = .error e) : e = st := by
  unfold readP at h
  split at h
  · cases h; rfl
  · split at h
    · cases h; rfl
    · cases h

theorem readPZ_error_eq (st e : SysState) (i : ℤ)
    (h : readPZ st i = .error e) : e = st := by
  unfold readPZ at h
  by_cases hi : i < 0
  · rw [if_pos hi] at h; cases h; rfl
  · rw [if_neg hi] at h; exact readP_error_eq st e i.toNat h

theorem readP_ok (st : SysState) (i pid : ℕ) (p : Particle)
    (hg : st.group[i]? = some pid) (hp : st.store[pid]? = some p) :
    readP st i = .ok (pid, p) := by
  simp [readP, hg, hp]

/-! ### Claim C1: the deterministic per-particle update -/

/-- C1: in the per-particle body of integrate() (lines 84-94, the
`detUpdate` stage applied to every particle of the group), the velocity
is set to exactly `v0 * n + mu * f` component-wise, overwriting the
previous velocity (the result does not depend on the incoming velocity),
and the position is incremented by `dt` times that same drift vector; the
director and force fields it reads are left untouched. -/
theorem integrate_det_drift (cfg : Config) (p : Particle) (w : ℚ × ℚ × ℚ) :
    (detUpdate cfg p).vx = cfg.m_v0 * p.nx + cfg.m_mu * p.fx ∧
    (detUpdate cfg p).vy = cfg.m_v0 * p.ny + cfg.m_mu * p.fy ∧
    (detUpdate cfg p).vz = cfg.m_v0 * p.nz + cfg.m_mu * p.fz ∧
    (detUpdate cfg p).x = p.x + cfg.m_dt * (detUpdate cfg p).vx ∧
    (detUpdate cfg p).y = p.y + cfg.m_dt * (detUpdate cfg p).vy ∧
    (detUpdate cfg p).z = p.z + cfg.m_dt * (detUpdate cfg p).vz ∧
    detUpdate cfg { p with vx := w.1, vy := w.2.1, vz := w.2.2 } = detUpdate cfg p ∧
    (detUpdate cfg p).nx = p.nx ∧ (detUpdate cfg p).ny = p.ny ∧
    (detUpdate cfg p).nz = p.nz ∧ (detUpdate cfg p).fx = p.fx ∧
    (detUpdate cfg p).fy = p.fy ∧ (detUpdate cfg p).fz = p.fz := by
  refine ⟨rfl, rfl, rfl, rfl, rfl, rfl, rfl, rfl, rfl, rfl, rfl, rfl, rfl⟩

/-! ### Claim C2: the stochastic translational kick -/

/-- C2: in the per-particle body (lines 96-107, the `transPhase` stage of
`stepParticle`), the translational kick happens iff `T > 0`; when it
does, each Cartesian component uses one fresh Gaussian draw `g` (stream
indices `gcount`, `gcount+1`, `gcount+2` for x, y, z), adding `B * g` to
the velocity component and `sqrt(dt) * B * g` (the same `g`) to the
position component, with `B = sqrt(2 * mu * T)`; when `T ≤ 0` no
translational draw is consumed. Per particle and step, `stepParticle`
consumes exactly 4 Gaussian draws when `T > 0` (3 translational plus the
rotational one) and exactly 1 otherwise, so draws are never reused across
components or steps. -/
theorem integrate_translational_noise (cfg : Config) (env : RNGEnv)
    (T sd : ℚ) (p : Particle) (st : SysState) :
    (T > 0 →
      transPhase cfg env T (cfg.m_sqrtFn (2 * cfg.m_mu * T)) sd p st =
        ({ detUpdate cfg p with
            vx := (detUpdate cfg p).vx
              + cfg.m_sqrtFn (2 * cfg.m_mu * T) * env.gauss st.gcount,
            vy := (detUpdate cfg p).vy
              + cfg.m_sqrtFn (2 * cfg.m_mu * T) * env.gauss (st.gcount + 1),
            vz := (detUpdate cfg p).vz
              + cfg.m_sqrtFn (2 * cfg.m_mu * T) * env.gauss (st.gcount + 2),
            x := (detUpdate cfg p).x
              + sd * (cfg.m_sqrtFn (2 * cfg.m_mu * T) * env.gauss st.gcount),
            y := (detUpdate cfg p).y
              + sd * (cfg.m_sqrtFn (2 * cfg.m_mu * T) * env.gauss (st.gcount + 1)),
            z := (detUpdate cfg p).z
              + sd * (cfg.m_sqrtFn (2 * cfg.m_mu * T) * env.gauss (st.gcount + 2)) },
          { st with gcount := st.gcount + 3 })) ∧
    (¬ T > 0 →
      transPhase cfg env T (cfg.m_sqrtFn (2 * cfg.m_mu * T)) sd p st
        = (detUpdate cfg p, st)) ∧
    (∀ (C : ConstraintOps) (i pid : ℕ) (q : Particle),
      cfg.m_constrainer = some C →
      st.group[i]? = some pid → st.store[pid]? = some q →
      (outState (stepParticle cfg env T (cfg.m_sqrtFn (2 * cfg.m_mu * T)) sd st i)).gcount
        = st.gcount + (if T > 0 then 4 else 1)) := by
  refine ⟨fun hT => ?_, fun hT => ?_, fun C i pid q hC hg hq => ?_⟩
  · simp only [transPhase, if_pos hT, noiseKick, drawGauss]
  · simp only [transPhase, if_neg hT]
  · rw [stepParticle, readP_ok st i pid q hg hq, hC]
    by_cases hT : T > 0
    · simp only [transPhase, if_pos hT, if_pos hT, noiseKick, rotPhase,
        drawGauss, outState, writeP_gcount]
    · simp only [transPhase, if_neg hT, if_neg hT, rotPhase, drawGauss,
        outState, writeP_gcount]

/-- Witness for C2: at `T = 0` the kick is skipped, and at `T = 1` one
`stepParticle` call consumes exactly 4 Gaussian draws. -/
theorem integrate_translational_noise_witness :
    transPhase cfgW envW 0 (cfgW.m_sqrtFn (2 * cfgW.m_mu * 0)) 5 pW stW
      = (detUpdate cfgW pW, stW) ∧
    (outState (stepParticle cfgW envW 1 (cfgW.m_sqrtFn (2 * cfgW.m_mu * 1)) 5 stW 0)).gcount
      = stW.gcount + 4 := by
  constructor
  · exact (integrate_translational_noise cfgW envW 0 5 pW stW).2.1 (by norm_num)
  · have h := (integrate_translational_noise cfgW envW 1 5 pW stW).2.2
      flatOps 0 0 pW rfl (by decide) (by decide)
    simpa using h

/-! ### Claim C3: the rotational stage -/

/-- C3: in the per-particle body (lines 108-120, the `rotPhase` stage of
`stepParticle`), `enforce` is applied to the particle first;
`project_torque` is evaluated at the enforced particle; the angular
velocity is set to `mu_r` times that projection;
`dtheta = dt * omega + stoch_coeff * g` with one fresh Gaussian draw `g`;
`rotate_director` is applied unconditionally and `rotate_velocity`
exactly when velocity tracking is on. -/
theorem integrate_rotational_stage (cfg : Config) (C : ConstraintOps)
    (env : RNGEnv) (p : Particle) (st : SysState) :
    rotPhase cfg C env p st =
      (let pe := C.enforce p
       let om := cfg.m_mur * C.project_torque (C.enforce p)
       let dtheta := cfg.m_dt * om + cfg.m_stoch_coeff * env.gauss st.gcount
       let p3 := C.rotate_director { pe with omega := om } dtheta
       let p4 := if cfg.m_velocity then C.rotate_velocity p3 dtheta else p3
       ({ p4 with age := p4.age + cfg.m_dt },
        { st with gcount := st.gcount + 1 })) := rfl

/-! ### Claim C9: set_pair_parameters writes the range into the strength -/

theorem updK_a_eq (tbl : ℤ → ℤ → SoftParameters) (i j v a b) :
    ((updK tbl i j v) a b).a = (tbl a b).a := by
  unfold updK; split <;> rfl

theorem updK_self (tbl : ℤ → ℤ → SoftParameters) (i j v) :
    (updK tbl i j v) i j = { tbl i j with k := v } := by
  simp [updK]

theorem updK_ne (tbl : ℤ → ℤ → SoftParameters) (i j v a b)
    (h : ¬(a = i ∧ b = j)) : (updK tbl i j v) a b = tbl a b := by
  simp only [updK, if_neg h]

/-- C9: whenever `set_pair_parameters` returns without throwing, the
stored strength `m_pair_params[type_1-1][type_2-1].k` (and the symmetric
entry when the types differ) ends up equal to the *range* value — the
supplied `a` if present, else the default `m_a` — because the stores at
lines 145-147 overwrite the `.k` field with `param["a"]`; the `.a` field
of the table is never written. -/
theorem soft_pair_k_range_swap (s : PairSoftPotentialState)
    (pp : PairParamInput) (t1 t2 : ℤ)
    (h1 : pp.type_1 = some t1) (h2 : pp.type_2 = some t2) :
    pairOk (set_pair_parameters s pp) = true ∧
    ((pairOut (set_pair_parameters s pp)).m_pair_params (t1 - 1) (t2 - 1)).k
      = pp.a.getD s.m_a ∧
    (t1 ≠ t2 →
      ((pairOut (set_pair_parameters s pp)).m_pair_params (t2 - 1) (t1 - 1)).k
        = pp.a.getD s.m_a) ∧
    (∀ i j, ((pairOut (set_pair_parameters s pp)).m_pair_params i j).a
      = (s.m_pair_params i j).a) := by
  have hpa : (match pp.a with | some v => v | none => s.m_a) = pp.a.getD s.m_a := by
    cases pp.a <;> rfl
  obtain ⟨pk, hk⟩ : ∃ pk : ℚ, (match pp.k with | some v => v | none => s.m_k) = pk :=
    ⟨_, rfl⟩
  by_cases hne : t1 = t2
  · subst hne
    have hres : set_pair_parameters s pp = .ok { s with
        m_pair_params :=
          updK (updK s.m_pair_params (t1 - 1) (t1 - 1) pk) (t1 - 1) (t1 - 1)
            (pp.a.getD s.m_a),
        m_has_pair_params := true } := by
      unfold set_pair_parameters
      rw [h1, h2]
      simp only [hpa, hk, ne_eq, not_true_eq_false, if_false]
    rw [hres]
    simp only [pairOut, pairOk]
    exact ⟨trivial, by rw [updK_self], fun h => absurd rfl h,
      fun i j => by rw [updK_a_eq, updK_a_eq]⟩
  · have hres : set_pair_parameters s pp = .ok { s with
        m_pair_params :=
          updK
            (updK (updK (updK s.m_pair_params (t1 - 1) (t2 - 1) pk)
              (t2 - 1) (t1 - 1) pk) (t1 - 1) (t2 - 1) (pp.a.getD s.m_a))
            (t2 - 1) (t1 - 1) (pp.a.getD s.m_a),
        m_has_pair_params := true } := by
      unfold set_pair_parameters
      rw [h1, h2]
      simp only [hpa, hk, ne_eq, hne, not_false_eq_true, if_true]
    have hne2 : ¬(t1 - 1 = t2 - 1 ∧ t2 - 1 = t1 - 1) := fun h => hne (by omega)
    rw [hres]
    simp only [pairOut, pairOk]
    refine ⟨trivial, ?_, fun _ => ?_, fun i j => ?_⟩
    · rw [updK_ne _ _ _ _ _ _ hne2, updK_self]
    · rw [updK_self]
    · rw [updK_a_eq, updK_a_eq, updK_a_eq, updK_a_eq]

/-- Witness for C9: with `type_1 = 1`, `type_2 = 2`, `k = 5`, `a = 3`,
the call succeeds and both `[0][1].k` and `[1][0].k` end up `3` (the
range), while the `.a` entries are untouched. -/
theorem soft_pair_k_range_swap_witness :
    pairOk (set_pair_parameters psW ⟨some 1, some 2, some 5, some 3⟩) = true ∧
    ((pairOut (set_pair_parameters psW ⟨some 1, some 2, some 5, some 3⟩)).m_pair_params 0 1).k = 3 ∧
    ((pairOut (set_pair_parameters psW ⟨some 1, some 2, some 5, some 3⟩)).m_pair_params 1 0).k = 3 ∧
    ((pairOut (set_pair_parameters psW ⟨some 1, some 2, some 5, some 3⟩)).m_pair_params 0 1).a = 99 := by
  have h := soft_pair_k_range_swap psW ⟨some 1, some 2, some 5, some 3⟩ 1 2 rfl rfl
  refine ⟨h.1, ?_, ?_, ?_⟩
  · simpa using h.2.1
  · simpa using h.2.2.1 (by decide)
  · simpa using h.2.2.2 0 1

/-! ### Claim C10: missing type keys throw before any mutation -/

/-- C10: `set_pair_parameters` throws exactly when the `type_1` or the
`type_2` key is absent from its argument, and a throwing call leaves the
object state (in particular `m_pair_params` and `m_has_pair_params`)
unchanged: the `.error` result carries the untouched state `s`. -/
theorem soft_pair_missing_type_throws (s : PairSoftPotentialState)
    (pp : PairParamInput) :
    (pairOk (set_pair_parameters s pp) = false ↔
      (pp.type_1 = none ∨ pp.type_2 = none)) ∧
    ((pp.type_1 = none ∨ pp.type_2 = none) →
      set_pair_parameters s pp = .error s) := by
  cases h1 : pp.type_1 <;> cases h2 : pp.type_2 <;>
    simp [set_pair_parameters, h1, h2, pairOk]

/-- Witness for C10: a call with `type_1` missing returns the unchanged
state as the thrown error. -/
theorem soft_pair_missing_type_throws_witness :
    set_pair_parameters psW ⟨none, some 2, some 5, some 3⟩ = .error psW :=
  (soft_pair_missing_type_throws psW ⟨none, some 2, some 5, some 3⟩).2 (Or.inl rfl)

/-! ### Machinery: invariants of the step and loop functions -/

theorem foldSteps_out_inv {α β : Type} (f : SysState → α → Except SysState SysState)
    (g : SysState → β) (h : ∀ st i, g (outState (f st i)) = g st) :
    ∀ (l : List α) (st : SysState), g (outState (foldSteps f l st)) = g st := by
  intro l
  induction l with
  | nil => intro st; rfl
  | cons i is ih =>
    intro st
    have hi := h st i
    simp only [foldSteps]
    cases hf : f st i with
    | error e =>
      rw [hf] at hi
      exact hi
    | ok st1 =>
      rw [hf] at hi
      exact (ih st1).trans hi

theorem transPhase_snd (cfg : Config) (env : RNGEnv) (T B sd : ℚ)
    (p : Particle) (st : SysState) :
    (transPhase cfg env T B sd p st).2
      = { st with gcount := st.gcount + (if T > 0 then 3 else 0) } := by
  unfold transPhase noiseKick drawGauss
  split <;> rfl

theorem rotPhase_snd (cfg : Config) (C : ConstraintOps) (env : RNGEnv)
    (p : Particle) (st : SysState) :
    (rotPhase cfg C env p st).2 = { st with gcount := st.gcount + 1 } := rfl

theorem stepParticle_out_ucount (cfg : Config) (env : RNGEnv) (T B sd : ℚ)
    (st : SysState) (i : ℕ) :
    (outState (stepParticle cfg env T B sd st i)).ucount = st.ucount := by
  unfold stepParticle
  cases hr : readP st i with
  | error e =>
    have he := readP_error_eq st e i hr
    subst he
    rfl
  | ok pr =>
    cases hC : cfg.m_constrainer with
    | none => simp [outState, transPhase_snd]
    | some C => simp [outState, rotPhase_snd, transPhase_snd]

theorem stepParticle_out_runStep (cfg : Config) (env : RNGEnv) (T B sd : ℚ)
    (st : SysState) (i : ℕ) :
    (outState (stepParticle cfg env T B sd st i)).runStep = st.runStep := by
  unfold stepParticle
  cases hr : readP st i with
  | error e =>
    have he := readP_error_eq st e i hr
    subst he
    rfl
  | ok pr =>
    cases hC : cfg.m_constrainer with
    | none => simp [outState, transPhase_snd]
    | some C => simp [outState, rotPhase_snd, transPhase_snd]

theorem stepParticle_ok (cfg : Config) (env : RNGEnv) (T B sd : ℚ)
    (C : ConstraintOps) (hC : cfg.m_constrainer = some C) (st : SysState) (i : ℕ)
    (hi : i < st.group.length)
    (hb : ∀ id ∈ st.group, id < st.store.length) :
    ∃ st1, stepParticle cfg env T B sd st i = .ok st1 ∧
      st1.group = st.group ∧ st1.store.length = st.store.length ∧
      st1.runStep = st.runStep ∧ st1.ucount = st.ucount ∧
      st1.gcount = st.gcount + (if T > 0 then 4 else 1) := by
  have hg : st.group[i]? = some st.group[i] := List.getElem?_eq_getElem hi
  have hpl : st.group[i] < st.store.length := hb _ (List.getElem_mem hi)
  have hp : st.store[st.group[i]]? = some st.store[st.group[i]] :=
    List.getElem?_eq_getElem hpl
  simp only [stepParticle, readP_ok st i _ _ hg hp, hC]
  refine ⟨_, rfl, ?_, ?_, ?_, ?_, ?_⟩
  · simp [rotPhase_snd, transPhase_snd]
  · simp [rotPhase_snd, transPhase_snd]
  · simp [rotPhase_snd, transPhase_snd]
  · simp [rotPhase_snd, transPhase_snd]
  · simp only [writeP_gcount, rotPhase_snd, transPhase_snd]
    split_ifs <;> omega

theorem stepLoop_ok (cfg : Config) (env : RNGEnv) (T B sd : ℚ)
    (C : ConstraintOps) (hC : cfg.m_constrainer = some C) :
    ∀ (l : List ℕ) (st : SysState),
      (∀ i ∈ l, i < st.group.length) →
      (∀ id ∈ st.group, id < st.store.length) →
      ∃ st1, foldSteps (stepParticle cfg env T B sd) l st = .ok st1 ∧
        st1.group = st.group ∧ st1.store.length = st.store.length ∧
        st1.runStep = st.runStep ∧ st1.ucount = st.ucount ∧
        st1.gcount = st.gcount + l.length * (if T > 0 then 4 else 1) := by
  intro l
  induction l with
  | nil =>
    intro st _ _
    exact ⟨st, rfl, rfl, rfl, rfl, rfl, by simp⟩
  | cons i is ih =>
    intro st hl hb
    obtain ⟨st1, hstep, hgr, hlen, hrs, huc, hgc⟩ :=
      stepParticle_ok cfg env T B sd C hC st i
        (hl i (List.mem_cons_self i is)) hb
    have hl1 : ∀ j ∈ is, j < st1.group.length := by
      rw [hgr]
      exact fun j hj => hl j (List.mem_cons_of_mem i hj)
    have hb1 : ∀ id ∈ st1.group, id < st1.store.length := by
      rw [hgr, hlen]
      exact hb
    obtain ⟨st2, hfold, hgr2, hlen2, hrs2, huc2, hgc2⟩ := ih st1 hl1 hb1
    refine ⟨st2, ?_, hgr2.trans hgr, hlen2.trans hlen, hrs2.trans hrs,
      huc2.trans huc, ?_⟩
    · simp only [foldSteps, hstep]
      exact hfold
    · rw [hgc2, hgc]
      generalize (if T > 0 then 4 else 1) = k
      simp [List.length_cons]
      ring

theorem flipStep_ok (cfg : Config) (env : RNGEnv) (st : SysState) (i : ℕ)
    (hi : i < st.group.length)
    (hb : ∀ id ∈ st.group, id < st.store.length) :
    ∃ st1, flipStep cfg env st i = .ok st1 ∧
      st1.group = st.group ∧ st1.store.length = st.store.length ∧
      st1.runStep = st.runStep ∧ st1.gcount = st.gcount ∧
      st1.ucount = st.ucount + 1 := by
  have hg : st.group[i]? = some st.group[i] := List.getElem?_eq_getElem hi
  have hpl : st.group[i] < st.store.length := hb _ (List.getElem_mem hi)
  have hp : st.store[st.group[i]]? = some st.store[st.group[i]] :=
    List.getElem?_eq_getElem hpl
  simp only [flipStep, readP_ok st i _ _ hg hp, drawUnif]
  split
  · exact ⟨_, rfl, rfl, by simp [writeP], rfl, rfl, rfl⟩
  · exact ⟨_, rfl, rfl, rfl, rfl, rfl, rfl⟩

theorem flipLoop_ok (cfg : Config) (env : RNGEnv) :
    ∀ (l : List ℕ) (st : SysState),
      (∀ i ∈ l, i < st.group.length) →
      (∀ id ∈ st.group, id < st.store.length) →
      ∃ st1, foldSteps (flipStep cfg env) l st = .ok st1 ∧
        st1.group = st.group ∧ st1.store.length = st.store.length ∧
        st1.runStep = st.runStep ∧ st1.gcount = st.gcount ∧
        st1.ucount = st.ucount + l.length := by
  intro l
  induction l with
  | nil =>
    intro st _ _
    exact ⟨st, rfl, rfl, rfl, rfl, rfl, by simp⟩
  | cons i is ih =>
    intro st hl hb
    obtain ⟨st1, hstep, hgr, hlen, hrs, hgcnt, hu⟩ :=
      flipStep_ok cfg env st i (hl i (List.mem_cons_self i is)) hb
    have hl1 : ∀ j ∈ is, j < st1.group.length := by
      rw [hgr]
      exact fun j hj => hl j (List.mem_cons_of_mem i hj)
    have hb1 : ∀ id ∈ st1.group, id < st1.store.length := by
      rw [hgr, hlen]
      exact hb
    obtain ⟨st2, hfold, hgr2, hlen2, hrs2, hgc2, hu2⟩ := ih st1 hl1 hb1
    refine ⟨st2, ?_, hgr2.trans hgr, hlen2.trans hlen, hrs2.trans hrs,
      hgc2.trans hgcnt, ?_⟩
    · simp only [foldSteps, hstep]
      exact hfold
    · rw [hu2, hu]
      simp [List.length_cons]
      omega

theorem flipPhase_ok (cfg : Config) (env : RNGEnv) (st : SysState)
    (hb : ∀ id ∈ st.group, id < st.store.length) :
    ∃ st1, flipPhase cfg env st = .ok st1 ∧
      st1.group = st.group ∧ st1.store.length = st.store.length ∧
      st1.runStep = st.runStep ∧ st1.gcount = st.gcount ∧
      st1.ucount = st.ucount + (if cfg.m_nematic then st.group.length else 0) := by
  unfold flipPhase
  cases hn : cfg.m_nematic with
  | false =>
    exact ⟨st, by simp, rfl, rfl, rfl, rfl, by simp⟩
  | true =>
    obtain ⟨st1, hfold, hgr, hlen, hrs, hgc, hu⟩ :=
      flipLoop_ok cfg env (List.range st.group.length) st
        (fun i hi => List.mem_range.mp hi) hb
    exact ⟨st1, by simpa using hfold, hgr, hlen, hrs, hgc, by simpa using hu⟩

theorem applyPotential_group (cfg : Config) (st : SysState) :
    (applyPotential cfg st).group = st.group := by
  unfold applyPotential
  cases cfg.m_potential <;> rfl

theorem applyPotential_runStep (cfg : Config) (st : SysState) :
    (applyPotential cfg st).runStep = st.runStep := by
  unfold applyPotential
  cases cfg.m_potential <;> rfl

theorem applyPotential_gcount (cfg : Config) (st : SysState) :
    (applyPotential cfg st).gcount = st.gcount := by
  unfold applyPotential
  cases cfg.m_potential <;> rfl

theorem applyPotential_ucount (cfg : Config) (st : SysState) :
    (applyPotential cfg st).ucount = st.ucount := by
  unfold applyPotential
  cases cfg.m_potential <;> rfl

theorem applyAlign_group (cfg : Config) (st : SysState) :
    (applyAlign cfg st).group = st.group := by
  unfold applyAlign
  cases cfg.m_align <;> rfl

theorem applyAlign_runStep (cfg : Config) (st : SysState) :
    (applyAlign cfg st).runStep = st.runStep := by
  unfold applyAlign
  cases cfg.m_align <;> rfl

theorem applyAlign_gcount (cfg : Config) (st : SysState) :
    (applyAlign cfg st).gcount = st.gcount := by
  unfold applyAlign
  cases cfg.m_align <;> rfl

theorem applyAlign_ucount (cfg : Config) (st : SysState) :
    (applyAlign cfg st).ucount = st.ucount := by
  unfold applyAlign
  cases cfg.m_align <;> rfl

theorem applyPotential_length (cfg : Config) (st : SysState)
    (hpot : forall P, cfg.m_potential = some P ->
      forall (d : Rat) (l : List Particle), (P d l).length = l.length) :
    (applyPotential cfg st).store.length = st.store.length := by
  unfold applyPotential
  cases hpo : cfg.m_potential with
  | none => rfl
  | some P => simp [hpot P hpo]

theorem applyAlign_length (cfg : Config) (st : SysState)
    (hal : forall A, cfg.m_align = some A ->
      forall (l : List Particle), (A l).length = l.length) :
    (applyAlign cfg st).store.length = st.store.length := by
  unfold applyAlign
  cases hao : cfg.m_align with
  | none => rfl
  | some A => simp [hal A hao]


theorem prePatch_ok (cfg : Config) (env : RNGEnv) (st : SysState)
    (C : ConstraintOps) (hC : cfg.m_constrainer = some C)
    (hb : ∀ id ∈ st.group, id < st.store.length)
    (hpot : ∀ P, cfg.m_potential = some P →
      ∀ (d : ℚ) (l : List Particle), (P d l).length = l.length)
    (hal : ∀ A, cfg.m_align = some A →
      ∀ (l : List Particle), (A l).length = l.length) :
    ∃ st1, prePatch cfg env st = .ok st1 ∧ st1.group = st.group ∧
      st1.store.length = st.store.length ∧
      st1.runStep = st.runStep ∧
      st1.ucount = st.ucount + (if cfg.m_nematic then st.group.length else 0) ∧
      st1.gcount = st.gcount
        + st.group.length * (if cfg.m_temp st.runStep > 0 then 4 else 1) := by
  have hb2 : ∀ id ∈ (reset_torques (reset_forces st)).group,
      id < (reset_torques (reset_forces st)).store.length := by
    simp only [reset_torques, reset_forces, List.length_map]
    exact hb
  obtain ⟨st3, hflip, hgr3, hlen3, hrs3, hgc3, hu3⟩ :=
    flipPhase_ok cfg env (reset_torques (reset_forces st)) hb2
  have hRg : (reset_torques (reset_forces st)).group = st.group := rfl
  have hRl : (reset_torques (reset_forces st)).store.length = st.store.length := by
    simp [reset_torques, reset_forces]
  have hRrs : (reset_torques (reset_forces st)).runStep = st.runStep := rfl
  have hgr3' : st3.group = st.group := hgr3.trans hRg
  have hlen3' : st3.store.length = st.store.length := hlen3.trans hRl
  have hgr5 : (applyAlign cfg (applyPotential cfg st3)).group = st.group := by
    rw [applyAlign_group, applyPotential_group, hgr3']
  have hlen5 : (applyAlign cfg (applyPotential cfg st3)).store.length
      = st.store.length := by
    rw [applyAlign_length cfg _ hal, applyPotential_length cfg _ hpot, hlen3']
  obtain ⟨st6, hfold, hgr6, hlen6, hrs6, hu6, hgc6⟩ :=
    stepLoop_ok cfg env (cfg.m_temp st.runStep)
      (cfg.m_sqrtFn (2 * cfg.m_mu * cfg.m_temp st.runStep))
      (cfg.m_sqrtFn cfg.m_dt) C hC (List.range st.group.length)
      (applyAlign cfg (applyPotential cfg st3))
      (by rw [hgr5]; exact fun i hi => List.mem_range.mp hi)
      (by rw [hgr5, hlen5]; exact hb)
  refine ⟨st6, ?_, ?_, ?_, ?_, ?_, ?_⟩
  · show prePatch cfg env st = .ok st6
    unfold prePatch
    rw [hflip]
    exact hfold
  · rw [hgr6, hgr5]
  · rw [hlen6, hlen5]
  · rw [hrs6, applyAlign_runStep, applyPotential_runStep, hrs3, hRrs]
  · rw [hu6, applyAlign_ucount, applyPotential_ucount, hu3]
    have : (reset_torques (reset_forces st)).ucount = st.ucount := rfl
    rw [this, hRg]
  · rw [hgc6, applyAlign_gcount, applyPotential_gcount, hgc3]
    have h1 : (reset_torques (reset_forces st)).gcount = st.gcount := rfl
    rw [h1]
    simp [List.length_range]

theorem scanLoop_error_eq (cond : Particle → Bool) (d : ℤ) (st : SysState) :
    ∀ (l : List ℤ) (e : SysState), scanLoop cond d st l = .error e → e = st := by
  intro l
  induction l with
  | nil => intro e h; cases h
  | cons i is ih =>
    intro e h
    cases hr : readPZ st i with
    | error e2 =>
      simp only [scanLoop, hr, Except.error.injEq] at h
      subst h
      exact readPZ_error_eq st _ i hr
    | ok pr =>
      simp only [scanLoop, hr] at h
      split at h
      · simp at h
      · exact ih e h

theorem copyStep_out_proj {β : Type} (soff : ℤ) (shift : ℚ) (g : SysState → β)
    (hw : ∀ st pid p, g (writeP st pid p) = g st) (st : SysState) (i : ℤ) :
    g (outState (copyStep soff shift st i)) = g st := by
  unfold copyStep
  cases h1 : readPZ st (i - soff) with
  | error e =>
    have := readPZ_error_eq st e _ h1
    subst this
    rfl
  | ok src =>
    cases h2 : readPZ st i with
    | error e =>
      have := readPZ_error_eq st e _ h2
      subst this
      rfl
    | ok tgt => exact hw st _ _

theorem patchCopyPhase_out_proj {β : Type} (g : SysState → β)
    (hw : ∀ st pid p, g (writeP st pid p) = g st) (st : SysState) :
    g (outState (patchCopyPhase st)) = g st := by
  unfold patchCopyPhase
  have hfold := foldSteps_out_inv
    (copyStep (up_internal_index_start - internal_index_start) length_period) g
    (copyStep_out_proj _ _ g hw)
    (intRange up_internal_index_start (up_internal_index_end + 1)) st
  cases hu : foldSteps
      (copyStep (up_internal_index_start - internal_index_start) length_period)
      (intRange up_internal_index_start (up_internal_index_end + 1)) st with
  | error e =>
    rw [hu] at hfold
    exact hfold
  | ok stU =>
    rw [hu] at hfold
    have hfold2 := foldSteps_out_inv
      (copyStep (down_internal_index_start - internal_index_start) (-length_period)) g
      (copyStep_out_proj _ _ g hw)
      (intRange down_internal_index_start (down_internal_index_end + 1)) stU
    exact hfold2.trans hfold

theorem patchScanPhase_error_eq (st e : SysState)
    (h : patchScanPhase st = .error e) : e = st := by
  unfold patchScanPhase at h
  cases h1 : scanLoop (fun p => decide (p.y ≤ length_period / 2))
      right_boundary_start0 st
      (intRange (right_boundary_start0 - boundary_periodic_update_region)
        (right_boundary_start0 + boundary_periodic_update_region)) with
  | error e1 =>
    simp only [h1, Except.error.injEq] at h
    subst h
    exact scanLoop_error_eq _ _ _ _ _ h1
  | ok rbs =>
  simp only [h1] at h
  cases h2 : scanLoop (fun p => decide (p.y ≤ -length_period / 2))
      right_boundary_end0 st
      (intRange (right_boundary_end0 - boundary_periodic_update_region)
        (right_boundary_end0 + boundary_periodic_update_region)) with
  | error e1 =>
    simp only [h2, Except.error.injEq] at h
    subst h
    exact scanLoop_error_eq _ _ _ _ _ h2
  | ok rbe0 =>
  simp only [h2] at h
  cases h3 : readPZ st rbs with
  | error e1 =>
    simp only [h3, Except.error.injEq] at h
    subst h
    exact readPZ_error_eq st _ _ h3
  | ok p1 =>
  simp only [h3] at h
  cases h4 : readPZ st rbe0 with
  | error e1 =>
    simp only [h4, Except.error.injEq] at h
    subst h
    exact readPZ_error_eq st _ _ h4
  | ok p2 =>
  simp only [h4] at h
  cases h5 : scanLoop (fun p => decide (p.y ≥ -length_period / 2))
      left_boundary_start0 st
      (intRange (left_boundary_start0 - boundary_periodic_update_region)
        (left_boundary_start0 + boundary_periodic_update_region)) with
  | error e1 =>
    simp only [h5, Except.error.injEq] at h
    subst h
    exact scanLoop_error_eq _ _ _ _ _ h5
  | ok lbs =>
  simp only [h5] at h
  cases h6 : scanLoop (fun p => decide (p.y ≥ length_period / 2))
      left_boundary_end0 st
      (intRange (left_boundary_end0 - boundary_periodic_update_region)
        (left_boundary_end0 + boundary_periodic_update_region)) with
  | error e1 =>
    simp only [h6, Except.error.injEq] at h
    subst h
    exact scanLoop_error_eq _ _ _ _ _ h6
  | ok lbe0 =>
  simp only [h6] at h
  cases h7 : readPZ st lbs with
  | error e1 =>
    simp only [h7, Except.error.injEq] at h
    subst h
    exact readPZ_error_eq st _ _ h7
  | ok p3 =>
  simp only [h7] at h
  cases h8 : readPZ st lbe0 with
  | error e1 =>
    simp only [h8, Except.error.injEq] at h
    subst h
    exact readPZ_error_eq st _ _ h8
  | ok p4 =>
  simp only [h8] at h
  simp at h

theorem periodicPatch_out_proj {β : Type} (g : SysState → β)
    (hw : ∀ st pid p, g (writeP st pid p) = g st) (st : SysState) :
    g (outState (periodicPatch st)) = g st := by
  unfold periodicPatch
  simp only [if_true]
  cases hs : patchScanPhase st with
  | error e =>
    have := patchScanPhase_error_eq st e hs
    subst this
    rfl
  | ok q =>
    have hcp := patchCopyPhase_out_proj g hw st
    cases hc : patchCopyPhase st with
    | error e =>
      rw [hc] at hcp
      exact hcp
    | ok stD =>
      rw [hc] at hcp
      simp only [Bool.false_eq_true, if_false]
      exact hcp

/-! ### Claim C5: bit-reproducibility at zero temperature -/

/-- C5: integrate() is a pure function of the initial state and the RNG
streams — two runs from the same state with the same seed (identical
streams) give identical results — and at `T(step) = 0` the whole call
consumes exactly one Gaussian draw per group particle (the rotational
one): the translational branch is skipped exactly, with no hidden
draws, so every draw made is determined by the seed and draw order. -/
theorem integrate_T0_deterministic (cfg : Config) (env env2 : RNGEnv)
    (st : SysState) :
    (env.gauss = env2.gauss → env.unif = env2.unif →
      integrate cfg env st = integrate cfg env2 st) ∧
    (∀ C : ConstraintOps, cfg.m_constrainer = some C →
      (∀ id ∈ st.group, id < st.store.length) →
      (∀ P, cfg.m_potential = some P →
        ∀ (d : ℚ) (l : List Particle), (P d l).length = l.length) →
      (∀ A, cfg.m_align = some A →
        ∀ (l : List Particle), (A l).length = l.length) →
      cfg.m_temp st.runStep = 0 →
      (outState (integrate cfg env st)).gcount = st.gcount + st.group.length) := by
  constructor
  · intro hg hu
    have henv : env = env2 := by
      cases env
      cases env2
      simp_all
    rw [henv]
  · intro C hC hb hpot hal hT
    obtain ⟨st1, hpre, _, _, _, _, hgc⟩ := prePatch_ok cfg env st C hC hb hpot hal
    have hTz : ¬ cfg.m_temp st.runStep > 0 := by
      rw [hT]
      exact lt_irrefl 0
    unfold integrate
    rw [hpre]
    rw [periodicPatch_out_proj SysState.gcount (fun _ _ _ => rfl) st1]
    rw [hgc, if_neg hTz, mul_one]

/-- Witness for C5: on the shared single-particle state at `T = 0`,
integrate() is reproducible and consumes exactly one Gaussian draw. -/
theorem integrate_T0_deterministic_witness :
    integrate cfgW envW stW = integrate cfgW envW stW ∧
    (outState (integrate cfgW envW stW)).gcount = stW.gcount + stW.group.length := by
  constructor
  · exact (integrate_T0_deterministic cfgW envW envW stW).1 rfl rfl
  · exact (integrate_T0_deterministic cfgW envW envW stW).2 flatOps rfl
      (by decide) (fun P h => Option.noConfusion h)
      (fun A h => Option.noConfusion h) rfl

theorem nodup_slot_inj (G : List ℕ) (hnd : G.Nodup) {i j x : ℕ}
    (hi : G[i]? = some x) (hj : G[j]? = some x) : i = j := by
  have hlen : i < G.length := (List.getElem?_eq_some_iff.mp hi).1
  exact List.getElem?_inj hlen hnd (hi.trans hj.symm)

theorem flipFold_spec (cfg : Config) (env : RNGEnv) :
    ∀ (m j : ℕ) (st : SysState),
      st.group.Nodup →
      (∀ id ∈ st.group, id < st.store.length) →
      j + m ≤ st.group.length →
      ∃ st1, foldSteps (flipStep cfg env) (List.range' j m) st = .ok st1 ∧
        st1.group = st.group ∧ st1.store.length = st.store.length ∧
        st1.runStep = st.runStep ∧ st1.gcount = st.gcount ∧
        st1.ucount = st.ucount + m ∧
        (∀ t pid, j ≤ t → t < j + m → st.group[t]? = some pid →
          st1.store[pid]? = (st.store[pid]?).map (fun q =>
            if env.unif (st.ucount + (t - j)) < cfg.m_tau
            then flipParticle cfg.m_velocity q else q)) ∧
        (∀ pid : ℕ, (∀ t, j ≤ t → t < j + m → st.group[t]? ≠ some pid) →
          st1.store[pid]? = st.store[pid]?) := by
  intro m
  induction m with
  | zero =>
    intro j st hnd hb hjm
    refine ⟨st, rfl, rfl, rfl, rfl, rfl, by simp, ?_, fun pid _ => rfl⟩
    intro t pid h1 h2
    omega
  | succ m ih =>
    intro j st hnd hb hjm
    have hj : j < st.group.length := by omega
    have hg : st.group[j]? = some st.group[j] := List.getElem?_eq_getElem hj
    have hpl : st.group[j] < st.store.length := hb _ (List.getElem_mem hj)
    have hp : st.store[st.group[j]]? = some st.store[st.group[j]] :=
      List.getElem?_eq_getElem hpl
    by_cases hcond : env.unif st.ucount < cfg.m_tau
    case pos =>
      have hstep : flipStep cfg env st j = .ok
          (writeP { st with ucount := st.ucount + 1 } st.group[j]
            (flipParticle cfg.m_velocity st.store[st.group[j]])) := by
        simp only [flipStep, readP_ok st j _ _ hg hp, drawUnif, if_pos hcond]
      set st' : SysState := writeP { st with ucount := st.ucount + 1 } st.group[j]
        (flipParticle cfg.m_velocity st.store[st.group[j]]) with hstdef
      have hpid0 : st'.store[st.group[j]]? =
          some (flipParticle cfg.m_velocity st.store[st.group[j]]) := by
        rw [hstdef]
        simp [writeP, List.getElem?_set_self hpl]
      have hother : ∀ x : ℕ, x ≠ st.group[j] → st'.store[x]? = st.store[x]? := by
        intro x hx
        rw [hstdef]
        simp [writeP, List.getElem?_set_ne (Ne.symm hx)]
      have hnd' : st'.group.Nodup := hnd
      have hb' : ∀ id ∈ st'.group, id < st'.store.length := by
        intro id hid
        rw [hstdef]
        simp only [writeP_store_length]
        exact hb id hid
      have hjm' : (j + 1) + m ≤ st'.group.length := by
        have : st'.group = st.group := rfl
        rw [this]
        omega
      obtain ⟨st1, hfold, hgr1, hlen1, hrs1, hgc1, hu1, htgt, hunch⟩ :=
        ih (j + 1) st' hnd' hb' hjm'
      have hgr' : st'.group = st.group := rfl
      have hlen' : st'.store.length = st.store.length := by
        rw [hstdef]; simp [writeP]
      have hu' : st'.ucount = st.ucount + 1 := rfl
      refine ⟨st1, ?_, hgr1.trans hgr', hlen1.trans hlen', hrs1, hgc1, ?_, ?_, ?_⟩
      · rw [List.range'_succ]
        simp only [foldSteps, hstep]
        exact hfold
      · rw [hu1, hu']
        omega
      · intro t pid h1 h2 h3
        by_cases ht : t = j
        · rw [ht] at h3 ⊢
          have hpid : pid = st.group[j] := (Option.some.inj (hg.symm.trans h3)).symm
          subst hpid
          have hnone : ∀ t2, j + 1 ≤ t2 → t2 < (j + 1) + m →
              st'.group[t2]? ≠ some st.group[j] := by
            intro t2 hle hlt hsome
            rw [hgr'] at hsome
            have := nodup_slot_inj st.group hnd hsome hg
            omega
          rw [hunch _ hnone, hpid0, hp]
          simp [hcond]
        · have ht1 : j + 1 ≤ t := by omega
          have ht2 : t < (j + 1) + m := by omega
          have h3' : st'.group[t]? = some pid := h3
          have hres := htgt t pid ht1 ht2 h3'
          have hpidne : pid ≠ st.group[j] := by
            intro hpe
            subst hpe
            have := nodup_slot_inj st.group hnd h3 hg
            omega
          rw [hother pid hpidne] at hres
          rw [hres]
          have hidx : st'.ucount + (t - (j + 1)) = st.ucount + (t - j) := by
            rw [hu']
            omega
          simp only [hidx]
      · intro pid hnone
        have hnone' : ∀ t2, j + 1 ≤ t2 → t2 < (j + 1) + m →
            st'.group[t2]? ≠ some pid := by
          intro t2 hle hlt
          exact hnone t2 (by omega) (by omega)
        have hpidne : pid ≠ st.group[j] := by
          intro hpe
          subst hpe
          exact hnone j (le_refl j) (by omega) hg
        rw [hunch pid hnone', hother pid hpidne]
    case neg =>
      have hstep : flipStep cfg env st j = .ok { st with ucount := st.ucount + 1 } := by
        simp only [flipStep, readP_ok st j _ _ hg hp, drawUnif, if_neg hcond]
      set st' : SysState := { st with ucount := st.ucount + 1 } with hstdef
      have hnd' : st'.group.Nodup := hnd
      have hb' : ∀ id ∈ st'.group, id < st'.store.length := hb
      have hjm' : (j + 1) + m ≤ st'.group.length := by
        have hgr' : st'.group = st.group := rfl
        rw [hgr']
        omega
      obtain ⟨st1, hfold, hgr1, hlen1, hrs1, hgc1, hu1, htgt, hunch⟩ :=
        ih (j + 1) st' hnd' hb' hjm'
      refine ⟨st1, ?_, hgr1, hlen1, hrs1, hgc1, ?_, ?_, ?_⟩
      · rw [List.range'_succ]
        simp only [foldSteps, hstep]
        exact hfold
      · rw [hu1]
        have : st'.ucount = st.ucount + 1 := rfl
        rw [this]
        omega
      · intro t pid h1 h2 h3
        by_cases ht : t = j
        · rw [ht] at h3 ⊢
          have hpid : pid = st.group[j] := (Option.some.inj (hg.symm.trans h3)).symm
          subst hpid
          have hnone : ∀ t2, j + 1 ≤ t2 → t2 < (j + 1) + m →
              st'.group[t2]? ≠ some st.group[j] := by
            intro t2 hle hlt hsome
            have := nodup_slot_inj st.group hnd hsome hg
            omega
          rw [hunch _ hnone]
          have hsame : st'.store[st.group[j]]? = st.store[st.group[j]]? := rfl
          rw [hsame, hp]
          simp [hcond]
        · have ht1 : j + 1 ≤ t := by omega
          have ht2 : t < (j + 1) + m := by omega
          have hres := htgt t pid ht1 ht2 h3
          have : st'.store[pid]? = st.store[pid]? := rfl
          rw [this] at hres
          rw [hres]
          have hidx : st'.ucount + (t - (j + 1)) = st.ucount + (t - j) := by
            have hueq : st'.ucount = st.ucount + 1 := rfl
            rw [hueq]
            omega
          simp only [hidx]
      · intro pid hnone
        have hnone' : ∀ t2, j + 1 ≤ t2 → t2 < (j + 1) + m →
            st'.group[t2]? ≠ some pid := by
          intro t2 hle hlt
          exact hnone t2 (by omega) (by omega)
        exact hunch pid hnone'

theorem prePatch_out_ucount_nonem (cfg : Config) (env : RNGEnv) (st : SysState)
    (hn : cfg.m_nematic = false) :
    (outState (prePatch cfg env st)).ucount = st.ucount := by
  have hflip : flipPhase cfg env (reset_torques (reset_forces st))
      = .ok (reset_torques (reset_forces st)) := by
    unfold flipPhase
    rw [hn]
    simp
  unfold prePatch
  rw [hflip]
  show (outState (foldSteps
      (stepParticle cfg env (cfg.m_temp st.runStep)
        (cfg.m_sqrtFn (2 * cfg.m_mu * cfg.m_temp st.runStep))
        (cfg.m_sqrtFn cfg.m_dt))
      (List.range st.group.length)
      (applyAlign cfg (applyPotential cfg (reset_torques (reset_forces st)))))).ucount
    = st.ucount
  rw [foldSteps_out_inv _ SysState.ucount
    (fun st2 i => stepParticle_out_ucount cfg env _ _ _ st2 i) _ _]
  rw [applyAlign_ucount, applyPotential_ucount]
  rfl

theorem integrate_out_ucount_nonem (cfg : Config) (env : RNGEnv) (st : SysState)
    (hn : cfg.m_nematic = false) :
    (outState (integrate cfg env st)).ucount = st.ucount := by
  unfold integrate
  cases hp : prePatch cfg env st with
  | error e =>
    have h1 := prePatch_out_ucount_nonem cfg env st hn
    rw [hp] at h1
    exact h1
  | ok st1 =>
    have h1 := prePatch_out_ucount_nonem cfg env st hn
    rw [hp] at h1
    rw [periodicPatch_out_proj SysState.ucount (fun _ _ _ => rfl) st1]
    exact h1

/-! ### Claim C6: nematic director flips -/

/-- C6: with nematic mode off, the flip pass of integrate() (lines 56-70)
is skipped — no director or velocity is negated there, and the whole
integrate() call consumes no uniform draw whatever the RNG holds. With
nematic mode on (and a well-formed group), the flip pass consumes exactly
one uniform draw per particle (slot `i` uses draw `ucount + i`), and a
particle's director is negated in place (velocity too when tracking is
on, per `flipParticle`) iff its draw is strictly below the per-step flip
probability `m_tau`. -/
theorem integrate_nematic_flip (cfg : Config) (env : RNGEnv) (st : SysState) :
    (cfg.m_nematic = false →
      flipPhase cfg env st = .ok st ∧
      (outState (integrate cfg env st)).ucount = st.ucount) ∧
    (cfg.m_nematic = true → st.group.Nodup →
      (∀ id ∈ st.group, id < st.store.length) →
      ∃ st1, flipPhase cfg env st = .ok st1 ∧
        st1.ucount = st.ucount + st.group.length ∧
        ∀ i pid p, st.group[i]? = some pid → st.store[pid]? = some p →
          st1.store[pid]? = some (if env.unif (st.ucount + i) < cfg.m_tau
            then flipParticle cfg.m_velocity p else p)) := by
  constructor
  · intro hn
    constructor
    · unfold flipPhase
      rw [hn]
      simp
    · exact integrate_out_ucount_nonem cfg env st hn
  · intro hn hnd hb
    obtain ⟨st1, hfold, hgr1, hlen1, hrs1, hgc1, hu1, htgt, hunch⟩ :=
      flipFold_spec cfg env st.group.length 0 st hnd hb (by omega)
    have hphase : flipPhase cfg env st = .ok st1 := by
      unfold flipPhase
      rw [hn]
      simpa [List.range_eq_range'] using hfold
    refine ⟨st1, hphase, by simpa using hu1, ?_⟩
    intro i pid p hg hp
    have hi : i < st.group.length := (List.getElem?_eq_some_iff.mp hg).1
    have := htgt i pid (by omega) (by omega) hg
    rw [hp] at this
    simpa using this

/-- Witness for C6: with nematic off nothing flips and no uniform draw is
consumed; with nematic on and flip probability 1, the single particle's
slot consumes draw 0 and its director is flipped. -/
theorem integrate_nematic_flip_witness :
    flipPhase cfgW envW stW = .ok stW ∧
    (outState (integrate cfgW envW stW)).ucount = stW.ucount ∧
    (outState (flipPhase cfgN envW stW)).ucount = stW.ucount + stW.group.length ∧
    (outState (flipPhase cfgN envW stW)).store[0]? =
      some (if envW.unif (stW.ucount + 0) < cfgN.m_tau
        then flipParticle cfgN.m_velocity pW else pW) := by
  obtain ⟨ha, hb⟩ := (integrate_nematic_flip cfgW envW stW).1 rfl
  obtain ⟨st1, h1, h2, h3⟩ := (integrate_nematic_flip cfgN envW stW).2 rfl
    (by decide) (by decide)
  refine ⟨ha, hb, ?_, ?_⟩
  · rw [h1]
    exact h2
  · rw [h1]
    exact h3 0 0 pW (by decide) (by decide)

/-! ### Claim C7: unset constraint operator -/

/-- Counterexample for C7: with the constraint operator unset,
integrate() does not fail fast before mutating particle state. On a
single-particle group with `v0 = 1`, `dt = 1/10`, the run aborts (at the
first `enforce` dereference), but the abort-time state already has the
particle's position moved from `0` to `1/10` — a partial update. -/
theorem integrate_missing_constrainer_cex :
    exceptOk (integrate cfgU envW stW) = false ∧
    ((outState (integrate cfgU envW stW)).store[0]?).map Particle.x = some (1/10) ∧
    ((outState (integrate cfgU envW stW)).store[0]?).map Particle.vx = some 1 ∧
    (stW.store[0]?).map Particle.x = some 0 ∧
    (stW.store[0]?).map Particle.vx = some 5 := by
  refine ⟨rfl, ?_, ?_, rfl, rfl⟩ <;>
    · simp only [integrate, prePatch, flipPhase, foldSteps, stepParticle, readP,
        transPhase, detUpdate, noiseKick, rotPhase, drawGauss, applyPotential,
        applyAlign, reset_torques, reset_forces, resetForcesP, resetTorquesP,
        writeP, outState, cfgU, cfgW, stW, pW, envW]
      norm_num [resetTorquesP, resetForcesP]

/-- C7 amended: if the constraint operator is unset, integrate() does not
fail fast before particle mutation; it crashes at the first particle's
`enforce` call, and the state at that point already contains the reset
force/torque accumulators and the first particle's full translational
update (velocity overwritten, position advanced, noise included when
`T > 0`). Stated for nematic mode off and absent optional collaborators;
the error payload is exactly that partially-updated state. -/
theorem integrate_missing_constrainer (cfg : Config) (env : RNGEnv)
    (st : SysState) (pid : ℕ) (p : Particle)
    (hC : cfg.m_constrainer = none)
    (hnem : cfg.m_nematic = false)
    (hpo : cfg.m_potential = none)
    (hao : cfg.m_align = none)
    (hg : st.group[0]? = some pid)
    (hp : st.store[pid]? = some p) :
    integrate cfg env st = .error
      (writeP
        (transPhase cfg env (cfg.m_temp st.runStep)
          (cfg.m_sqrtFn (2 * cfg.m_mu * cfg.m_temp st.runStep))
          (cfg.m_sqrtFn cfg.m_dt) (resetTorquesP (resetForcesP p))
          (reset_torques (reset_forces st))).2 pid
        (transPhase cfg env (cfg.m_temp st.runStep)
          (cfg.m_sqrtFn (2 * cfg.m_mu * cfg.m_temp st.runStep))
          (cfg.m_sqrtFn cfg.m_dt) (resetTorquesP (resetForcesP p))
          (reset_torques (reset_forces st))).1) := by
  have hflip : flipPhase cfg env (reset_torques (reset_forces st))
      = .ok (reset_torques (reset_forces st)) := by
    unfold flipPhase
    rw [hnem]
    simp
  have happ : applyAlign cfg (applyPotential cfg (reset_torques (reset_forces st)))
      = reset_torques (reset_forces st) := by
    unfold applyAlign applyPotential
    rw [hpo, hao]
  have hg2 : (reset_torques (reset_forces st)).group[0]? = some pid := hg
  have hp2 : (reset_torques (reset_forces st)).store[pid]?
      = some (resetTorquesP (resetForcesP p)) := by
    simp [reset_torques, reset_forces, List.getElem?_map, hp]
  have hN : 0 < st.group.length := (List.getElem?_eq_some_iff.mp hg).1
  obtain ⟨m, hm⟩ : ∃ m, st.group.length = m + 1 := ⟨st.group.length - 1, by omega⟩
  have hpre : prePatch cfg env st = .error
      (writeP
        (transPhase cfg env (cfg.m_temp st.runStep)
          (cfg.m_sqrtFn (2 * cfg.m_mu * cfg.m_temp st.runStep))
          (cfg.m_sqrtFn cfg.m_dt) (resetTorquesP (resetForcesP p))
          (reset_torques (reset_forces st))).2 pid
        (transPhase cfg env (cfg.m_temp st.runStep)
          (cfg.m_sqrtFn (2 * cfg.m_mu * cfg.m_temp st.runStep))
          (cfg.m_sqrtFn cfg.m_dt) (resetTorquesP (resetForcesP p))
          (reset_torques (reset_forces st))).1) := by
    unfold prePatch
    simp only [hflip, happ, hm, List.range_succ_eq_map, foldSteps]
    simp only [stepParticle, readP_ok _ 0 _ _ hg2 hp2, hC]
  unfold integrate
  rw [hpre]

/-- Witness for C7's amended statement, at the shared concrete inputs. -/
theorem integrate_missing_constrainer_witness :
    integrate cfgU envW stW = .error
      (writeP
        (transPhase cfgU envW (cfgU.m_temp stW.runStep)
          (cfgU.m_sqrtFn (2 * cfgU.m_mu * cfgU.m_temp stW.runStep))
          (cfgU.m_sqrtFn cfgU.m_dt) (resetTorquesP (resetForcesP pW))
          (reset_torques (reset_forces stW))).2 0
        (transPhase cfgU envW (cfgU.m_temp stW.runStep)
          (cfgU.m_sqrtFn (2 * cfgU.m_mu * cfgU.m_temp stW.runStep))
          (cfgU.m_sqrtFn cfgU.m_dt) (resetTorquesP (resetForcesP pW))
          (reset_torques (reset_forces stW))).1) :=
  integrate_missing_constrainer cfgU envW stW 0 pW rfl rfl rfl rfl
    (by decide) (by decide)

/-! ### Machinery: evaluation of the patch index constants -/

theorem internal_index_end_eq : internal_index_end = 967 := by decide

theorem up_internal_index_start_eq : up_internal_index_start = 968 := by decide

theorem up_internal_index_end_eq : up_internal_index_end = 1935 := by decide

theorem down_internal_index_start_eq : down_internal_index_start = 1936 := by decide

theorem down_internal_index_end_eq : down_internal_index_end = 2903 := by decide

theorem right_boundary_start0_eq : right_boundary_start0 = 1027 := by
  norm_num [right_boundary_start0, internal_index_end, length_period, bpacking]

theorem right_boundary_end0_eq : right_boundary_end0 = 1087 := by
  norm_num [right_boundary_end0, internal_index_end, length_period, bpacking]

theorem left_boundary_start0_eq : left_boundary_start0 = 1607 := by
  norm_num [left_boundary_start0, internal_index_end, length_period, bpacking,
    x_lenghth]

theorem left_boundary_end0_eq : left_boundary_end0 = 1667 := by
  norm_num [left_boundary_end0, internal_index_end, length_period, bpacking,
    x_lenghth]

theorem boundary_region_eq : boundary_periodic_update_region = 30 := rfl

theorem intRange_cons (lo hi : ℤ) (h : lo < hi) :
    intRange lo hi = lo :: intRange (lo + 1) hi := by
  unfold intRange
  have h1 : (hi - lo).toNat = (hi - (lo + 1)).toNat + 1 := by omega
  rw [h1, List.range_succ_eq_map]
  simp only [List.map_cons, List.map_map, List.cons.injEq]
  constructor
  · simp
  · refine List.map_congr_left ?_
    intro a _
    simp only [Function.comp_apply]
    push_cast
    ring

theorem readPZ_oob (st : SysState) (i : ℤ) (h0 : 0 ≤ i)
    (hlen : st.group.length ≤ i.toNat) : readPZ st i = .error st := by
  unfold readPZ readP
  rw [if_neg (by omega : ¬ i < 0)]
  have hnone : st.group[i.toNat]? = none := List.getElem?_eq_none hlen
  rw [hnone]

theorem periodicPatch_fail_short (st : SysState)
    (hlen : st.group.length ≤ 997) : exceptOk (periodicPatch st) = false := by
  have hlo : right_boundary_start0 - boundary_periodic_update_region = 997 := by
    rw [right_boundary_start0_eq, boundary_region_eq]
    norm_num
  have hhi : right_boundary_start0 + boundary_periodic_update_region = 1057 := by
    rw [right_boundary_start0_eq, boundary_region_eq]
    norm_num
  have hcons : intRange (right_boundary_start0 - boundary_periodic_update_region)
      (right_boundary_start0 + boundary_periodic_update_region)
      = 997 :: intRange 998 1057 := by
    rw [hlo, hhi]
    exact intRange_cons 997 1057 (by norm_num)
  have hread : readPZ st 997 = .error st :=
    readPZ_oob st 997 (by norm_num) (by simpa using hlen)
  have hscan : scanLoop (fun p => decide (p.y ≤ length_period / 2))
      right_boundary_start0 st
      (intRange (right_boundary_start0 - boundary_periodic_update_region)
        (right_boundary_start0 + boundary_periodic_update_region))
      = .error st := by
    rw [hcons]
    simp only [scanLoop, hread]
  have hphase : patchScanPhase st = .error st := by
    unfold patchScanPhase
    rw [hscan]
  unfold periodicPatch
  simp only [if_true, hphase, exceptOk]

/-! ### Claim C4: the single-particle flat-plane scenario -/

/-- Counterexample for C4: on exactly the claimed scenario — one particle
at the origin with director `(1,0,0)`, `v0 = 1`, `mu = 0`, `T = 0`,
`dt = 1/10`, a flat-plane constrainer whose enforce is the identity —
one call to integrate() does not complete at all: the hardcoded periodic
patch reads group index 997 out of a 1-particle group, so no final state
with position `(0.1, 0, 0)` is produced. -/
theorem integrate_single_particle_scenario_cex :
    exceptOk (integrate cfgW envW stW) = false := by
  obtain ⟨st1, hpre, hgr1, _, _, _, _⟩ := prePatch_ok cfgW envW stW flatOps rfl
    (by decide) (fun P h => Option.noConfusion h) (fun A h => Option.noConfusion h)
  unfold integrate
  rw [hpre]
  apply periodicPatch_fail_short
  rw [hgr1]
  decide

/-- C4 amended: in the claimed scenario the *pre-patch* part of
integrate() (nematic off, no potential/alignment, `stoch_coeff = 0`, a
flat-plane constrainer with identity enforce, zero projected torque on
torque-free particles, and angle-0 rotations fixing the particle) does
leave the particle at position `(1/10, 0, 0)` with velocity `(1, 0, 0)`
and director unchanged; the full integrate() call, however, fails for
this 1-particle group because the hardcoded periodic patch reads group
index 997. -/
theorem integrate_single_particle_scenario (cfg : Config) (C : ConstraintOps)
    (env : RNGEnv) (st : SysState) (p : Particle)
    (hdt : cfg.m_dt = 1/10) (hmu : cfg.m_mu = 0) (hv0 : cfg.m_v0 = 1)
    (hsc : cfg.m_stoch_coeff = 0) (hnem : cfg.m_nematic = false)
    (hC : cfg.m_constrainer = some C)
    (hpo : cfg.m_potential = none) (hao : cfg.m_align = none)
    (hT : cfg.m_temp st.runStep = 0)
    (henf : ∀ q, C.enforce q = q)
    (hpt : ∀ q, q.tau_x = 0 → q.tau_y = 0 → q.tau_z = 0 → C.project_torque q = 0)
    (hrd : ∀ q, C.rotate_director q 0 = q)
    (hrv : ∀ q, C.rotate_velocity q 0 = q)
    (hgroup : st.group = [0]) (hstore : st.store = [p])
    (hx : p.x = 0) (hy : p.y = 0) (hz : p.z = 0)
    (hnx : p.nx = 1) (hny : p.ny = 0) (hnz : p.nz = 0) :
    exceptOk (prePatch cfg env st) = true ∧
    ((outState (prePatch cfg env st)).store[0]?).map (fun q => (q.x, q.y, q.z))
      = some (1/10, 0, 0) ∧
    ((outState (prePatch cfg env st)).store[0]?).map (fun q => (q.vx, q.vy, q.vz))
      = some (1, 0, 0) ∧
    ((outState (prePatch cfg env st)).store[0]?).map (fun q => (q.nx, q.ny, q.nz))
      = some (1, 0, 0) ∧
    exceptOk (integrate cfg env st) = false := by
  have hT0 : ¬ ((0:ℚ) > 0) := by norm_num
  have hflip : flipPhase cfg env (reset_torques (reset_forces st))
      = .ok (reset_torques (reset_forces st)) := by
    unfold flipPhase
    rw [hnem]
    simp
  have happ : applyAlign cfg (applyPotential cfg (reset_torques (reset_forces st)))
      = reset_torques (reset_forces st) := by
    unfold applyAlign applyPotential
    rw [hpo, hao]
  have hg2 : (reset_torques (reset_forces st)).group[0]? = some 0 := by
    show st.group[0]? = some 0
    rw [hgroup]
    rfl
  have hp2 : (reset_torques (reset_forces st)).store[0]?
      = some (resetTorquesP (resetForcesP p)) := by
    show ((st.store.map resetForcesP).map resetTorquesP)[0]? = _
    rw [hstore]
    rfl
  have hN : st.group.length = 1 := by
    rw [hgroup]
    rfl
  have hpt0 : C.project_torque (detUpdate cfg (resetTorquesP (resetForcesP p))) = 0 :=
    hpt _ rfl rfl rfl
  have hrot : rotPhase cfg C env (detUpdate cfg (resetTorquesP (resetForcesP p)))
      (reset_torques (reset_forces st)) =
      ({ detUpdate cfg (resetTorquesP (resetForcesP p)) with
          omega := 0,
          age := (detUpdate cfg (resetTorquesP (resetForcesP p))).age + cfg.m_dt },
        { reset_torques (reset_forces st) with
          gcount := (reset_torques (reset_forces st)).gcount + 1 }) := by
    simp only [rotPhase, drawGauss, henf, hpt0, hsc, mul_zero, zero_mul, add_zero,
      hrd, hrv, ite_self]
  have hpre : prePatch cfg env st = .ok
      (writeP { reset_torques (reset_forces st) with
          gcount := (reset_torques (reset_forces st)).gcount + 1 } 0
        { detUpdate cfg (resetTorquesP (resetForcesP p)) with
          omega := 0,
          age := (detUpdate cfg (resetTorquesP (resetForcesP p))).age + cfg.m_dt }) := by
    unfold prePatch
    have hr1 : List.range 1 = [0] := rfl
    simp only [hflip, happ, hN, hr1, foldSteps]
    simp only [stepParticle, readP_ok _ 0 _ _ hg2 hp2, hC, hT, transPhase,
      if_neg hT0, hrot]
  rw [hpre]
  have hstoreF : (writeP { reset_torques (reset_forces st) with
      gcount := (reset_torques (reset_forces st)).gcount + 1 } 0
      { detUpdate cfg (resetTorquesP (resetForcesP p)) with
        omega := 0,
        age := (detUpdate cfg (resetTorquesP (resetForcesP p))).age + cfg.m_dt }).store[0]?
      = some { detUpdate cfg (resetTorquesP (resetForcesP p)) with
          omega := 0,
          age := (detUpdate cfg (resetTorquesP (resetForcesP p))).age + cfg.m_dt } := by
    show (((st.store.map resetForcesP).map resetTorquesP).set 0 _)[0]? = _
    rw [hstore]
    rfl
  refine ⟨rfl, ?_, ?_, ?_, ?_⟩
  · rw [show outState (Except.ok (writeP { reset_torques (reset_forces st) with
      gcount := (reset_torques (reset_forces st)).gcount + 1 } 0
      { detUpdate cfg (resetTorquesP (resetForcesP p)) with
        omega := 0,
        age := (detUpdate cfg (resetTorquesP (resetForcesP p))).age + cfg.m_dt }))
      = writeP { reset_torques (reset_forces st) with
        gcount := (reset_torques (reset_forces st)).gcount + 1 } 0
      { detUpdate cfg (resetTorquesP (resetForcesP p)) with
        omega := 0,
        age := (detUpdate cfg (resetTorquesP (resetForcesP p))).age + cfg.m_dt }
      from rfl, hstoreF]
    simp only [Option.map_some]
    norm_num [detUpdate, resetTorquesP, resetForcesP, hdt, hmu, hv0, hx, hy, hz,
      hnx, hny, hnz]
  · rw [show outState (Except.ok (writeP { reset_torques (reset_forces st) with
      gcount := (reset_torques (reset_forces st)).gcount + 1 } 0
      { detUpdate cfg (resetTorquesP (resetForcesP p)) with
        omega := 0,
        age := (detUpdate cfg (resetTorquesP (resetForcesP p))).age + cfg.m_dt }))
      = writeP { reset_torques (reset_forces st) with
        gcount := (reset_torques (reset_forces st)).gcount + 1 } 0
      { detUpdate cfg (resetTorquesP (resetForcesP p)) with
        omega := 0,
        age := (detUpdate cfg (resetTorquesP (resetForcesP p))).age + cfg.m_dt }
      from rfl, hstoreF]
    simp only [Option.map_some]
    norm_num [detUpdate, resetTorquesP, resetForcesP, hdt, hmu, hv0, hx, hy, hz,
      hnx, hny, hnz]
  · rw [show outState (Except.ok (writeP { reset_torques (reset_forces st) with
      gcount := (reset_torques (reset_forces st)).gcount + 1 } 0
      { detUpdate cfg (resetTorquesP (resetForcesP p)) with
        omega := 0,
        age := (detUpdate cfg (resetTorquesP (resetForcesP p))).age + cfg.m_dt }))
      = writeP { reset_torques (reset_forces st) with
        gcount := (reset_torques (reset_forces st)).gcount + 1 } 0
      { detUpdate cfg (resetTorquesP (resetForcesP p)) with
        omega := 0,
        age := (detUpdate cfg (resetTorquesP (resetForcesP p))).age + cfg.m_dt }
      from rfl, hstoreF]
    simp only [Option.map_some]
    norm_num [detUpdate, resetTorquesP, resetForcesP, hdt, hmu, hv0, hx, hy, hz,
      hnx, hny, hnz]
  · show exceptOk (match prePatch cfg env st with
      | .error e => .error e
      | .ok st1 => periodicPatch st1) = false
    rw [hpre]
    apply periodicPatch_fail_short
    show st.group.length ≤ 997
    rw [hN]
    norm_num

/-- Witness for C4's amended statement, at the shared concrete inputs. -/
theorem integrate_single_particle_scenario_witness :
    exceptOk (prePatch cfgW envW stW) = true ∧
    ((outState (prePatch cfgW envW stW)).store[0]?).map (fun q => (q.x, q.y, q.z))
      = some (1/10, 0, 0) ∧
    ((outState (prePatch cfgW envW stW)).store[0]?).map (fun q => (q.vx, q.vy, q.vz))
      = some (1, 0, 0) ∧
    ((outState (prePatch cfgW envW stW)).store[0]?).map (fun q => (q.nx, q.ny, q.nz))
      = some (1, 0, 0) ∧
    exceptOk (integrate cfgW envW stW) = false :=
  integrate_single_particle_scenario cfgW flatOps envW stW pW
    rfl rfl rfl rfl rfl rfl rfl rfl rfl
    (fun _ => rfl) (fun _ _ _ _ => rfl) (fun _ => rfl) (fun _ => rfl)
    rfl rfl rfl rfl rfl rfl rfl rfl

/-! ### Machinery: the periodic-patch copy loops -/

theorem foldSteps_map {α β : Type} (f : SysState → β → Except SysState SysState)
    (g : α → β) :
    ∀ (l : List α) (st : SysState),
      foldSteps f (l.map g) st = foldSteps (fun s a => f s (g a)) l st := by
  intro l
  induction l with
  | nil => intro st; rfl
  | cons i is ih =>
    intro st
    simp only [List.map_cons, foldSteps]
    cases hf : f st (g i) with
    | error e => rfl
    | ok st1 => exact ih st1

theorem intRange_natCast (a k : ℕ) :
    intRange (a : ℤ) ((a : ℤ) + (k : ℤ))
      = (List.range' a k).map (fun n : ℕ => (n : ℤ)) := by
  unfold intRange
  have h1 : ((a : ℤ) + (k : ℤ) - (a : ℤ)).toNat = k := by omega
  rw [h1, List.range'_eq_map_range, List.map_map]
  refine List.map_congr_left ?_
  intro x _
  simp only [Function.comp_apply]
  push_cast
  ring

theorem intRange_mem_iff (lo hi i : ℤ) :
    i ∈ intRange lo hi ↔ lo ≤ i ∧ i < hi := by
  unfold intRange
  simp only [List.mem_map, List.mem_range]
  constructor
  · rintro ⟨k, hk, rfl⟩
    omega
  · intro h
    exact ⟨(i - lo).toNat, by omega, by omega⟩

theorem copyStep_nat (A : ℕ) (shift : ℚ) (st : SysState) (n : ℕ) (hA : A ≤ n) :
    copyStep (A : ℤ) shift st (n : ℤ) =
      (match readP st (n - A) with
       | .error e => .error e
       | .ok src =>
         match readP st n with
         | .error e => .error e
         | .ok tgt =>
           .ok (writeP st tgt.1
             { tgt.2 with x := src.2.x, y := src.2.y + shift, z := src.2.z })) := by
  unfold copyStep readPZ
  have h1 : ¬((n : ℤ) - (A : ℤ) < 0) := by omega
  have h2 : ¬((n : ℤ) < 0) := by omega
  have h3 : ((n : ℤ) - (A : ℤ)).toNat = n - A := by omega
  have h4 : ((n : ℤ)).toNat = n := by omega
  rw [if_neg h1, if_neg h2, h3, h4]

theorem readPZ_ok_of_bounds (st : SysState) (i : ℤ) (h0 : 0 ≤ i)
    (hlt : i.toNat < st.group.length)
    (hb : ∀ id ∈ st.group, id < st.store.length) :
    ∃ pr, readPZ st i = .ok pr := by
  unfold readPZ
  rw [if_neg (by omega : ¬ i < 0)]
  have hg : st.group[i.toNat]? = some st.group[i.toNat] :=
    List.getElem?_eq_getElem hlt
  have hpl : st.group[i.toNat] < st.store.length := hb _ (List.getElem_mem hlt)
  exact ⟨_, readP_ok st _ _ _ hg (List.getElem?_eq_getElem hpl)⟩

theorem scanLoop_ok (cond : Particle → Bool) (d : ℤ) (st : SysState) :
    ∀ l : List ℤ, (∀ i ∈ l, ∃ pr, readPZ st i = .ok pr) →
      ∃ r, scanLoop cond d st l = .ok r ∧ (r = d ∨ r ∈ l) := by
  intro l
  induction l with
  | nil => exact fun _ => ⟨d, rfl, Or.inl rfl⟩
  | cons i is ih =>
    intro h
    obtain ⟨pr, hpr⟩ := h i (List.mem_cons_self i is)
    cases hcb : cond pr.2 with
    | true =>
      refine ⟨i, ?_, Or.inr (List.mem_cons_self i is)⟩
      simp only [scanLoop, hpr, hcb, if_true]
    | false =>
      obtain ⟨r, hr, hd⟩ := ih (fun j hj => h j (List.mem_cons_of_mem i hj))
      refine ⟨r, ?_, ?_⟩
      · simp only [scanLoop, hpr, hcb, Bool.false_eq_true, if_false]
        exact hr
      · cases hd with
        | inl h1 => exact Or.inl h1
        | inr h2 => exact Or.inr (List.mem_cons_of_mem i h2)

theorem patchScanPhase_ok (st : SysState)
    (hb : ∀ id ∈ st.group, id < st.store.length)
    (hN : 2904 ≤ st.group.length) :
    ∃ q, patchScanPhase st = .ok q := by
  have hread : ∀ i : ℤ, 0 ≤ i → i < 2904 → ∃ pr, readPZ st i = .ok pr := by
    intro i h0 hlt
    exact readPZ_ok_of_bounds st i h0 (by omega) hb
  have hwin : ∀ lo hi : ℤ, 0 ≤ lo → hi ≤ 2904 →
      ∀ i ∈ intRange lo hi, ∃ pr, readPZ st i = .ok pr := by
    intro lo hi h0 h4 i hi2
    rw [intRange_mem_iff] at hi2
    exact hread i (by omega) (by omega)
  obtain ⟨rbs, hs1, hd1⟩ := scanLoop_ok (fun p => decide (p.y ≤ length_period / 2))
    right_boundary_start0 st
    (intRange (right_boundary_start0 - boundary_periodic_update_region)
      (right_boundary_start0 + boundary_periodic_update_region))
    (hwin _ _ (by rw [right_boundary_start0_eq, boundary_region_eq]; norm_num)
      (by rw [right_boundary_start0_eq, boundary_region_eq]; norm_num))
  obtain ⟨rbe0, hs2, hd2⟩ := scanLoop_ok (fun p => decide (p.y ≤ -length_period / 2))
    right_boundary_end0 st
    (intRange (right_boundary_end0 - boundary_periodic_update_region)
      (right_boundary_end0 + boundary_periodic_update_region))
    (hwin _ _ (by rw [right_boundary_end0_eq, boundary_region_eq]; norm_num)
      (by rw [right_boundary_end0_eq, boundary_region_eq]; norm_num))
  obtain ⟨lbs, hs3, hd3⟩ := scanLoop_ok (fun p => decide (p.y ≥ -length_period / 2))
    left_boundary_start0 st
    (intRange (left_boundary_start0 - boundary_periodic_update_region)
      (left_boundary_start0 + boundary_periodic_update_region))
    (hwin _ _ (by rw [left_boundary_start0_eq, boundary_region_eq]; norm_num)
      (by rw [left_boundary_start0_eq, boundary_region_eq]; norm_num))
  obtain ⟨lbe0, hs4, hd4⟩ := scanLoop_ok (fun p => decide (p.y ≥ length_period / 2))
    left_boundary_end0 st
    (intRange (left_boundary_end0 - boundary_periodic_update_region)
      (left_boundary_end0 + boundary_periodic_update_region))
    (hwin _ _ (by rw [left_boundary_end0_eq, boundary_region_eq]; norm_num)
      (by rw [left_boundary_end0_eq, boundary_region_eq]; norm_num))
  have hrbs_bound : 0 ≤ rbs ∧ rbs < 2904 := by
    cases hd1 with
    | inl h => rw [h, right_boundary_start0_eq]; norm_num
    | inr h =>
      rw [intRange_mem_iff] at h
      rw [right_boundary_start0_eq, boundary_region_eq] at h
      omega
  have hrbe_bound : 0 ≤ rbe0 ∧ rbe0 < 2904 := by
    cases hd2 with
    | inl h => rw [h, right_boundary_end0_eq]; norm_num
    | inr h =>
      rw [intRange_mem_iff] at h
      rw [right_boundary_end0_eq, boundary_region_eq] at h
      omega
  have hlbs_bound : 0 ≤ lbs ∧ lbs < 2904 := by
    cases hd3 with
    | inl h => rw [h, left_boundary_start0_eq]; norm_num
    | inr h =>
      rw [intRange_mem_iff] at h
      rw [left_boundary_start0_eq, boundary_region_eq] at h
      omega
  have hlbe_bound : 0 ≤ lbe0 ∧ lbe0 < 2904 := by
    cases hd4 with
    | inl h => rw [h, left_boundary_end0_eq]; norm_num
    | inr h =>
      rw [intRange_mem_iff] at h
      rw [left_boundary_end0_eq, boundary_region_eq] at h
      omega
  obtain ⟨p1, hp1⟩ := hread rbs hrbs_bound.1 hrbs_bound.2
  obtain ⟨p2, hp2⟩ := hread rbe0 hrbe_bound.1 hrbe_bound.2
  obtain ⟨p3, hp3⟩ := hread lbs hlbs_bound.1 hlbs_bound.2
  obtain ⟨p4, hp4⟩ := hread lbe0 hlbe_bound.1 hlbe_bound.2
  refine ⟨(rbs, (if abs (p1.2.y - p2.2.y) < 1 / 1000 then rbe0 - 1 else rbe0),
    lbs, (if abs (p4.2.y - p3.2.y) < 1 / 1000 then lbe0 - 1 else lbe0)), ?_⟩
  unfold patchScanPhase
  simp only [hs1, hs2, hp1, hp2, hs3, hs4, hp3, hp4]

theorem copyFoldN_spec (A : ℕ) (shift : ℚ) :
    ∀ (m j : ℕ) (st : SysState),
      A ≤ j →
      st.group.Nodup →
      (∀ id ∈ st.group, id < st.store.length) →
      j + m ≤ A + A →
      j + m ≤ st.group.length →
      ∃ st1,
        foldSteps (fun s (n : ℕ) => copyStep (A : ℤ) shift s (n : ℤ))
          (List.range' j m) st = .ok st1 ∧
        st1.group = st.group ∧ st1.store.length = st.store.length ∧
        st1.runStep = st.runStep ∧ st1.gcount = st.gcount ∧
        st1.ucount = st.ucount ∧
        (∀ t tid sid ptgt psrc, j ≤ t → t < j + m →
          st.group[t]? = some tid → st.group[t - A]? = some sid →
          st.store[tid]? = some ptgt → st.store[sid]? = some psrc →
          st1.store[tid]? = some
            { ptgt with x := psrc.x, y := psrc.y + shift, z := psrc.z }) ∧
        (∀ pid : ℕ, (∀ t, j ≤ t → t < j + m → st.group[t]? ≠ some pid) →
          st1.store[pid]? = st.store[pid]?) := by
  intro m
  induction m with
  | zero =>
    intro j st hA hnd hb h2A hlen
    refine ⟨st, rfl, rfl, rfl, rfl, rfl, rfl, ?_, fun pid _ => rfl⟩
    intro t tid sid ptgt psrc h1 h2
    omega
  | succ m ih =>
    intro j st hA hnd hb h2A hlen
    have hjlen : j < st.group.length := by omega
    have hslen : j - A < st.group.length := by omega
    have hgt : st.group[j]? = some st.group[j] := List.getElem?_eq_getElem hjlen
    have hgs : st.group[j - A]? = some st.group[j - A] :=
      List.getElem?_eq_getElem hslen
    have hbt : st.group[j] < st.store.length := hb _ (List.getElem_mem hjlen)
    have hbs : st.group[j - A] < st.store.length := hb _ (List.getElem_mem hslen)
    have hpt : st.store[st.group[j]]? = some st.store[st.group[j]] :=
      List.getElem?_eq_getElem hbt
    have hps : st.store[st.group[j - A]]? = some st.store[st.group[j - A]] :=
      List.getElem?_eq_getElem hbs
    have hstep : copyStep (A : ℤ) shift st (j : ℤ) = .ok
        (writeP st st.group[j]
          { st.store[st.group[j]] with
            x := st.store[st.group[j - A]].x,
            y := st.store[st.group[j - A]].y + shift,
            z := st.store[st.group[j - A]].z }) := by
      rw [copyStep_nat A shift st j hA]
      simp only [readP_ok st (j - A) _ _ hgs hps, readP_ok st j _ _ hgt hpt]
    set st' : SysState := writeP st st.group[j]
      { st.store[st.group[j]] with
        x := st.store[st.group[j - A]].x,
        y := st.store[st.group[j - A]].y + shift,
        z := st.store[st.group[j - A]].z } with hstdef
    have hgr' : st'.group = st.group := rfl
    have hlen' : st'.store.length = st.store.length := by
      rw [hstdef]
      simp [writeP]
    have hw_self : st'.store[st.group[j]]? = some
        { st.store[st.group[j]] with
          x := st.store[st.group[j - A]].x,
          y := st.store[st.group[j - A]].y + shift,
          z := st.store[st.group[j - A]].z } := by
      rw [hstdef]
      simp [writeP, List.getElem?_set_self hbt]
    have hw_ne : ∀ x : ℕ, x ≠ st.group[j] → st'.store[x]? = st.store[x]? := by
      intro x hx
      rw [hstdef]
      simp [writeP, List.getElem?_set_ne (Ne.symm hx)]
    obtain ⟨st1, hfold, hgr1, hlen1, hrs1, hgc1, huc1, htgt, hunch⟩ :=
      ih (j + 1) st' (by omega) hnd
        (fun id hid => by rw [hlen']; exact hb id hid)
        (by omega) (by rw [hgr']; omega)
    refine ⟨st1, ?_, hgr1.trans hgr', hlen1.trans hlen', hrs1, hgc1, huc1, ?_, ?_⟩
    · rw [List.range'_succ]
      simp only [foldSteps, hstep]
      exact hfold
    · intro t tid sid ptgt psrc h1 h2 hgt2 hgs2 hpt2 hps2
      by_cases ht : t = j
      · rw [ht] at hgt2 hgs2
        have htid : tid = st.group[j] := (Option.some.inj (hgt.symm.trans hgt2)).symm
        have hsid : sid = st.group[j - A] := (Option.some.inj (hgs.symm.trans hgs2)).symm
        subst htid
        subst hsid
        have hptv : ptgt = st.store[st.group[j]] :=
          (Option.some.inj (hpt.symm.trans hpt2)).symm
        have hpsv : psrc = st.store[st.group[j - A]] :=
          (Option.some.inj (hps.symm.trans hps2)).symm
        subst hptv
        subst hpsv
        have hnone : ∀ t2, j + 1 ≤ t2 → t2 < (j + 1) + m →
            st'.group[t2]? ≠ some st.group[j] := by
          intro t2 hle hlt hsome
          have heq2 : st.group[t2]? = some st.group[j] := hsome
          have := nodup_slot_inj st.group hnd heq2 hgt
          omega
        rw [hunch _ hnone, hw_self]
      · have ht1 : j + 1 ≤ t := by omega
        have ht2' : t < (j + 1) + m := by omega
        have htidne : tid ≠ st.group[j] := by
          intro hpe
          subst hpe
          have := nodup_slot_inj st.group hnd hgt2 hgt
          omega
        have hsidne : sid ≠ st.group[j] := by
          intro hpe
          subst hpe
          have := nodup_slot_inj st.group hnd hgs2 hgt
          omega
        have hgt3 : st'.group[t]? = some tid := hgt2
        have hgs3 : st'.group[t - A]? = some sid := hgs2
        have hpt3 : st'.store[tid]? = some ptgt := by
          rw [hw_ne tid htidne]
          exact hpt2
        have hps3 : st'.store[sid]? = some psrc := by
          rw [hw_ne sid hsidne]
          exact hps2
        exact htgt t tid sid ptgt psrc ht1 ht2' hgt3 hgs3 hpt3 hps3
    · intro pid hnone
      have hnone' : ∀ t2, j + 1 ≤ t2 → t2 < (j + 1) + m →
          st'.group[t2]? ≠ some pid := by
        intro t2 hle hlt
        exact hnone t2 (by omega) (by omega)
      have hpidne : pid ≠ st.group[j] := by
        intro hpe
        subst hpe
        exact hnone j (le_refl j) (by omega) hgt
      rw [hunch pid hnone', hw_ne pid hpidne]

theorem up_offset_eq : up_internal_index_start - internal_index_start
    = ((968 : ℕ) : ℤ) := by decide

theorem down_offset_eq : down_internal_index_start - internal_index_start
    = ((1936 : ℕ) : ℤ) := by decide

theorem up_list_eq : intRange up_internal_index_start (up_internal_index_end + 1)
    = (List.range' 968 968).map (fun n : ℕ => (n : ℤ)) := by
  rw [up_internal_index_start_eq, up_internal_index_end_eq]
  have h := intRange_natCast 968 968
  norm_num at h ⊢
  exact h

theorem down_list_eq :
    intRange down_internal_index_start (down_internal_index_end + 1)
    = (List.range' 1936 968).map (fun n : ℕ => (n : ℤ)) := by
  rw [down_internal_index_start_eq, down_internal_index_end_eq]
  have h := intRange_natCast 1936 968
  norm_num at h ⊢
  exact h

theorem patchCopyPhase_spec (st : SysState)
    (hnd : st.group.Nodup)
    (hb : ∀ id ∈ st.group, id < st.store.length)
    (hN : 2904 ≤ st.group.length) :
    ∃ st1, patchCopyPhase st = .ok st1 ∧
      st1.group = st.group ∧ st1.store.length = st.store.length ∧
      st1.runStep = st.runStep ∧ st1.gcount = st.gcount ∧
      st1.ucount = st.ucount ∧
      (∀ t tid sid ptgt psrc, 968 ≤ t → t < 1936 →
        st.group[t]? = some tid → st.group[t - 968]? = some sid →
        st.store[tid]? = some ptgt → st.store[sid]? = some psrc →
        st1.store[tid]? = some
          { ptgt with x := psrc.x, y := psrc.y + 30, z := psrc.z }) ∧
      (∀ t tid sid ptgt psrc, 1936 ≤ t → t < 2904 →
        st.group[t]? = some tid → st.group[t - 1936]? = some sid →
        st.store[tid]? = some ptgt → st.store[sid]? = some psrc →
        st1.store[tid]? = some
          { ptgt with x := psrc.x, y := psrc.y - 30, z := psrc.z }) ∧
      (∀ pid : ℕ, (∀ t, 968 ≤ t → t < 2904 → st.group[t]? ≠ some pid) →
        st1.store[pid]? = st.store[pid]?) := by
  obtain ⟨stU, hupfold, hgrU, hlenU, hrsU, hgcU, hucU, htgtU, hunchU⟩ :=
    copyFoldN_spec 968 length_period 968 968 st (le_refl 968) hnd hb
      (by norm_num) (by omega)
  have hndU : stU.group.Nodup := by
    rw [hgrU]
    exact hnd
  have hbU : ∀ id ∈ stU.group, id < stU.store.length := by
    rw [hgrU, hlenU]
    exact hb
  obtain ⟨stD, hdownfold, hgrD, hlenD, hrsD, hgcD, hucD, htgtD, hunchD⟩ :=
    copyFoldN_spec 1936 (-length_period) 968 1936 stU (by norm_num) hndU hbU
      (by norm_num) (by rw [hgrU]; omega)
  have hpc : patchCopyPhase st = .ok stD := by
    unfold patchCopyPhase
    rw [up_offset_eq, up_list_eq, foldSteps_map]
    simp only [hupfold]
    rw [down_offset_eq, down_list_eq, foldSteps_map]
    exact hdownfold
  refine ⟨stD, hpc, (hgrD.trans hgrU), (hlenD.trans hlenU),
    (hrsD.trans hrsU), (hgcD.trans hgcU), (hucD.trans hucU), ?_, ?_, ?_⟩
  · intro t tid sid ptgt psrc h1 h2 hgt2 hgs2 hpt2 hps2
    have hnoneD : ∀ t2, 1936 ≤ t2 → t2 < 1936 + 968 →
        stU.group[t2]? ≠ some tid := by
      intro t2 hle hlt hsome
      rw [hgrU] at hsome
      have := nodup_slot_inj st.group hnd hsome hgt2
      omega
    rw [hunchD tid hnoneD]
    have := htgtU t tid sid ptgt psrc h1 (by omega) hgt2 hgs2 hpt2 hps2
    exact this
  · intro t tid sid ptgt psrc h1 h2 hgt2 hgs2 hpt2 hps2
    have hgt3 : stU.group[t]? = some tid := by
      rw [hgrU]
      exact hgt2
    have hgs3 : stU.group[t - 1936]? = some sid := by
      rw [hgrU]
      exact hgs2
    have hnoneU_t : ∀ t2, 968 ≤ t2 → t2 < 968 + 968 →
        st.group[t2]? ≠ some tid := by
      intro t2 hle hlt hsome
      have := nodup_slot_inj st.group hnd hsome hgt2
      omega
    have hnoneU_s : ∀ t2, 968 ≤ t2 → t2 < 968 + 968 →
        st.group[t2]? ≠ some sid := by
      intro t2 hle hlt hsome
      have := nodup_slot_inj st.group hnd hsome hgs2
      omega
    have hpt3 : stU.store[tid]? = some ptgt := by
      rw [hunchU tid hnoneU_t]
      exact hpt2
    have hps3 : stU.store[sid]? = some psrc := by
      rw [hunchU sid hnoneU_s]
      exact hps2
    have hres := htgtD t tid sid ptgt psrc h1 (by omega) hgt3 hgs3 hpt3 hps3
    rw [hres]
    have hyeq : psrc.y + -length_period = psrc.y - 30 := by
      show psrc.y + -(30 : ℚ) = psrc.y - 30
      ring
    rw [hyeq]
  · intro pid hnone
    have hnoneD : ∀ t2, 1936 ≤ t2 → t2 < 1936 + 968 →
        stU.group[t2]? ≠ some pid := by
      intro t2 hle hlt
      rw [hgrU]
      exact hnone t2 (by omega) (by omega)
    have hnoneU : ∀ t2, 968 ≤ t2 → t2 < 968 + 968 →
        st.group[t2]? ≠ some pid := by
      intro t2 hle hlt
      exact hnone t2 (by omega) (by omega)
    rw [hunchD pid hnoneD, hunchU pid hnoneU]

theorem readPZ_ok_bound (st : SysState) (i : ℤ) (pr : ℕ × Particle)
    (h : readPZ st i = .ok pr) :
    0 ≤ i ∧ i.toNat < st.group.length := by
  unfold readPZ at h
  by_cases hi : i < 0
  · rw [if_pos hi] at h
    cases h
  · rw [if_neg hi] at h
    refine ⟨by omega, ?_⟩
    cases hg : st.group[i.toNat]? with
    | none => simp [readP, hg] at h
    | some pid => exact (List.getElem?_eq_some_iff.mp hg).1

theorem copyStep_ok_info (soff : ℤ) (shift : ℚ) (st st1 : SysState) (i : ℤ)
    (h : copyStep soff shift st i = .ok st1) :
    0 ≤ i ∧ i.toNat < st.group.length ∧ st1.group = st.group := by
  unfold copyStep at h
  cases h1 : readPZ st (i - soff) with
  | error e => simp [h1] at h
  | ok src =>
    simp only [h1] at h
    cases h2 : readPZ st i with
    | error e => simp [h2] at h
    | ok tgt =>
      simp only [h2] at h
      obtain ⟨hb1, hb2⟩ := readPZ_ok_bound st i tgt h2
      refine ⟨hb1, hb2, ?_⟩
      rw [Except.ok.injEq] at h
      subst h
      rfl

theorem copyFold_ok_group (soff : ℤ) (shift : ℚ) :
    ∀ (l : List ℤ) (st st1 : SysState),
      foldSteps (copyStep soff shift) l st = .ok st1 → st1.group = st.group := by
  intro l
  induction l with
  | nil =>
    intro st st1 h
    cases h
    rfl
  | cons a as ih =>
    intro st st1 h
    cases hc : copyStep soff shift st a with
    | error e => simp [foldSteps, hc] at h
    | ok st2 =>
      simp only [foldSteps, hc] at h
      exact (ih st2 st1 h).trans (copyStep_ok_info soff shift st st2 a hc).2.2

theorem copyFold_ok_bound (soff : ℤ) (shift : ℚ) :
    ∀ (l : List ℤ) (st st1 : SysState),
      foldSteps (copyStep soff shift) l st = .ok st1 →
      ∀ i ∈ l, 0 ≤ i ∧ i.toNat < st.group.length := by
  intro l
  induction l with
  | nil =>
    intro st st1 _ i hi
    exact absurd hi (List.not_mem_nil i)
  | cons a as ih =>
    intro st st1 h i hi
    cases hc : copyStep soff shift st a with
    | error e => simp [foldSteps, hc] at h
    | ok st2 =>
      simp only [foldSteps, hc] at h
      obtain ⟨hb0, hb1, hgr⟩ := copyStep_ok_info soff shift st st2 a hc
      rcases List.mem_cons.mp hi with rfl | hmem
      · exact ⟨hb0, hb1⟩
      · have := ih st2 st1 h i hmem
        rw [hgr] at this
        exact this

theorem periodicPatch_ok_len (st st2 : SysState)
    (h : periodicPatch st = .ok st2) : 2904 ≤ st.group.length := by
  unfold periodicPatch at h
  simp only [if_true] at h
  cases hs : patchScanPhase st with
  | error e => simp [hs] at h
  | ok q =>
    simp only [hs] at h
    cases hc : patchCopyPhase st with
    | error e => simp [hc] at h
    | ok stD =>
      unfold patchCopyPhase at hc
      cases hu : foldSteps
          (copyStep (up_internal_index_start - internal_index_start) length_period)
          (intRange up_internal_index_start (up_internal_index_end + 1)) st with
      | error e => simp [hu] at hc
      | ok stU =>
        simp only [hu] at hc
        have hgrU : stU.group = st.group := copyFold_ok_group _ _ _ st stU hu
        have hmem : (2903 : ℤ) ∈ intRange down_internal_index_start
            (down_internal_index_end + 1) := by
          rw [down_internal_index_start_eq, down_internal_index_end_eq,
            intRange_mem_iff]
          norm_num
        obtain ⟨_, hlt⟩ := copyFold_ok_bound _ _ _ stU stD hc 2903 hmem
        rw [hgrU] at hlt
        omega

/-! ### Claim C8: the hardcoded periodic-boundary copy -/

/-- C8: on every call, after the per-particle loop, the patch
unconditionally overwrites the positions of the particles at group slots
968-1935 with the just-updated positions of slots 0-967 shifted by
`+30` in `y` (`x`, `z` copied exactly), and slots 1936-2903 with the same
sources shifted by `-30` in `y`; the positions are compared in the final
state, whose source entries the patch leaves untouched. Consequently
integrate() reads group index 2903 and completes only for groups of at
least 2904 particles: for smaller (well-formed) groups it aborts on an
out-of-range group access. -/
theorem integrate_periodic_patch (cfg : Config) (env : RNGEnv) (st : SysState)
    (C : ConstraintOps) (hC : cfg.m_constrainer = some C)
    (hnd : st.group.Nodup)
    (hb : ∀ id ∈ st.group, id < st.store.length)
    (hpot : ∀ P, cfg.m_potential = some P →
      ∀ (d : ℚ) (l : List Particle), (P d l).length = l.length)
    (hal : ∀ A, cfg.m_align = some A →
      ∀ (l : List Particle), (A l).length = l.length) :
    (2904 ≤ st.group.length →
      exceptOk (integrate cfg env st) = true ∧
      (∀ i tid sid psrc, 968 ≤ i → i ≤ 1935 →
        st.group[i]? = some tid → st.group[i - 968]? = some sid →
        (outState (integrate cfg env st)).store[sid]? = some psrc →
        ((outState (integrate cfg env st)).store[tid]?).map
            (fun q => (q.x, q.y, q.z))
          = some (psrc.x, psrc.y + 30, psrc.z)) ∧
      (∀ i tid sid psrc, 1936 ≤ i → i ≤ 2903 →
        st.group[i]? = some tid → st.group[i - 1936]? = some sid →
        (outState (integrate cfg env st)).store[sid]? = some psrc →
        ((outState (integrate cfg env st)).store[tid]?).map
            (fun q => (q.x, q.y, q.z))
          = some (psrc.x, psrc.y - 30, psrc.z))) ∧
    (st.group.length < 2904 → exceptOk (integrate cfg env st) = false) := by
  constructor
  · intro hN
    obtain ⟨stM, hpre, hgrM, hlenM, hrsM, hucM, hgcM⟩ :=
      prePatch_ok cfg env st C hC hb hpot hal
    have hndM : stM.group.Nodup := by
      rw [hgrM]
      exact hnd
    have hbM : ∀ id ∈ stM.group, id < stM.store.length := by
      rw [hgrM, hlenM]
      exact hb
    have hNM : 2904 ≤ stM.group.length := by
      rw [hgrM]
      exact hN
    obtain ⟨q, hscan⟩ := patchScanPhase_ok stM hbM hNM
    obtain ⟨stD, hcopy, hgrD, hlenD, _, _, _, htgtU, htgtD, hunch⟩ :=
      patchCopyPhase_spec stM hndM hbM hNM
    have hint : integrate cfg env st = .ok stD := by
      unfold integrate
      rw [hpre]
      unfold periodicPatch
      simp only [if_true, hscan, hcopy, Bool.false_eq_true, if_false]
    refine ⟨by rw [hint]; rfl, ?_, ?_⟩
    · intro i tid sid psrc h1 h2 hgt hgs hsrc
      rw [hint] at hsrc ⊢
      have htidb : tid < stM.store.length := by
        rw [hlenM]
        exact hb tid (List.getElem?_mem hgt)
      have hsidb : sid < stM.store.length := by
        rw [hlenM]
        exact hb sid (List.getElem?_mem hgs)
      have hptM : stM.store[tid]? = some stM.store[tid] :=
        List.getElem?_eq_getElem htidb
      have hpsM : stM.store[sid]? = some stM.store[sid] :=
        List.getElem?_eq_getElem hsidb
      have hsrc_unch : stD.store[sid]? = stM.store[sid]? := by
        apply hunch
        intro t2 hle hlt hsome
        rw [hgrM] at hsome
        have := nodup_slot_inj st.group hnd hsome hgs
        omega
      have hpsrc : psrc = stM.store[sid] := by
        have h3 : (outState (Except.ok stD)).store[sid]? = some psrc := hsrc
        have h4 : stD.store[sid]? = some psrc := h3
        rw [hsrc_unch, hpsM] at h4
        exact (Option.some.inj h4).symm
      have hgtM : stM.group[i]? = some tid := by
        rw [hgrM]
        exact hgt
      have hgsM : stM.group[i - 968]? = some sid := by
        rw [hgrM]
        exact hgs
      have htgt := htgtU i tid sid stM.store[tid] stM.store[sid]
        h1 (by omega) hgtM hgsM hptM hpsM
      show (stD.store[tid]?).map (fun q => (q.x, q.y, q.z)) = _
      rw [htgt, hpsrc]
      simp
    · intro i tid sid psrc h1 h2 hgt hgs hsrc
      rw [hint] at hsrc ⊢
      have htidb : tid < stM.store.length := by
        rw [hlenM]
        exact hb tid (List.getElem?_mem hgt)
      have hsidb : sid < stM.store.length := by
        rw [hlenM]
        exact hb sid (List.getElem?_mem hgs)
      have hptM : stM.store[tid]? = some stM.store[tid] :=
        List.getElem?_eq_getElem htidb
      have hpsM : stM.store[sid]? = some stM.store[sid] :=
        List.getElem?_eq_getElem hsidb
      have hsrc_unch : stD.store[sid]? = stM.store[sid]? := by
        apply hunch
        intro t2 hle hlt hsome
        rw [hgrM] at hsome
        have := nodup_slot_inj st.group hnd hsome hgs
        omega
      have hpsrc : psrc = stM.store[sid] := by
        have h4 : stD.store[sid]? = some psrc := hsrc
        rw [hsrc_unch, hpsM] at h4
        exact (Option.some.inj h4).symm
      have hgtM : stM.group[i]? = some tid := by
        rw [hgrM]
        exact hgt
      have hgsM : stM.group[i - 1936]? = some sid := by
        rw [hgrM]
        exact hgs
      have htgt := htgtD i tid sid stM.store[tid] stM.store[sid]
        h1 (by omega) hgtM hgsM hptM hpsM
      show (stD.store[tid]?).map (fun q => (q.x, q.y, q.z)) = _
      rw [htgt, hpsrc]
      simp
  · intro hlt
    cases hpre2 : prePatch cfg env st with
    | error e =>
      unfold integrate
      rw [hpre2]
      rfl
    | ok st1 =>
      unfold integrate
      rw [hpre2]
      show exceptOk (periodicPatch st1) = false
      cases hpp : periodicPatch st1 with
      | error e => rfl
      | ok st2 =>
        exfalso
        have hlen2 := periodicPatch_ok_len st1 st2 hpp
        obtain ⟨st1b, hpre3, hgr3, _, _, _, _⟩ :=
          prePatch_ok cfg env st C hC hb hpot hal
        rw [hpre2] at hpre3
        have heq : st1 = st1b := Except.ok.inj hpre3
        rw [heq, hgr3] at hlen2
        omega


/-- Witness for C8: integrate() completes on a well-formed 2904-particle
group and aborts on a 1-particle group. -/
theorem integrate_periodic_patch_witness :
    exceptOk (integrate cfgW envW stBig) = true ∧
    exceptOk (integrate cfgW envW stW) = false := by
  constructor
  · exact ((integrate_periodic_patch cfgW envW stBig flatOps rfl
      (by simp only [stBig]; exact List.nodup_range 2904)
      (by simp only [stBig, List.mem_range, List.length_replicate]
          exact fun id hid => hid)
      (fun P h => Option.noConfusion h)
      (fun A h => Option.noConfusion h)).1
      (by simp only [stBig, List.length_range]; exact le_refl 2904)).1
  · exact (integrate_periodic_patch cfgW envW stW flatOps rfl
      (by decide) (by decide)
      (fun P h => Option.noConfusion h)
      (fun A h => Option.noConfusion h)).2 (by decide)
